import Mathlib

set_option maxHeartbeats 1000000
set_option maxRecDepth 4000

/-!
Verification development for the docx-to-markdown transpiler core of
`word2xml2md_final.py` (repository ziqingchuan/docx2md).

The XML document tree handed to the transpiler is modelled as a nested
inductive `Elem`: a namespace-qualified tag, an ordered attribute list,
optional direct text, and an ordered child list.  An ElementTree tag string
of the shape `\x7buri\x7dlocal` is modelled as the pair `QName uri local`; an
unqualified tag has `ns = ""`.  All transpiler functions are translated from
the Python source; the two global image counters (`PNG_COUNT`, `WMF_COUNT`)
become an explicit `Counters` state threaded through the functions that read
or bump them, so every function here is pure and total.
-/

/-- Namespace-qualified XML name: `ns` is the namespace URI (empty when the
name is unqualified) and `loc` the local part. -/
structure QName where
  ns : String
  loc : String
deriving DecidableEq, Repr

/-- XML element: tag, attributes (document order), optional direct text,
children (document order).  This mirrors the read-only view the Python code
takes of an `xml.etree.ElementTree` element. -/
inductive Elem : Type where
  | mk : QName → List (QName × String) → Option String → List Elem → Elem

def Elem.tag : Elem → QName
  | .mk t _ _ _ => t

def Elem.attrs : Elem → List (QName × String)
  | .mk _ a _ _ => a

def Elem.text : Elem → Option String
  | .mk _ _ tx _ => tx

def Elem.children : Elem → List Elem
  | .mk _ _ _ cs => cs

/-- Namespace URIs of the `NS` table in the source. -/
def wNS : String := "http://schemas.openxmlformats.org/wordprocessingml/2006/main"

def mNS : String := "http://schemas.openxmlformats.org/officeDocument/2006/math"

def wpNS : String := "http://schemas.openxmlformats.org/drawingml/2006/wordprocessingDrawing"

def aNS : String := "http://schemas.openxmlformats.org/drawingml/2006/main"

def rNS : String := "http://schemas.openxmlformats.org/officeDocument/2006/relationships"

/-- Source `strip_ns`: drop the `\x7buri\x7d` part of a tag, i.e. return the
local name (for an unqualified tag the whole tag is returned, which is again
the local name). -/
def strip_ns (q : QName) : String := q.loc

/-- ElementTree `find('prefix:local', NS)`: first direct child with the given
qualified tag, if any. -/
def findChild (e : Elem) (q : QName) : Option Elem :=
  e.children.find? (fun c => c.tag == q)

/-- ElementTree `Element.get`: look an attribute up by qualified name. -/
def getAttr (e : Elem) (q : QName) : Option String :=
  (e.attrs.find? (fun a => a.1 == q)).map (fun a => a.2)

/-- Python truthiness for an optional string: `None` and `""` are falsy. -/
def truthyStr : Option String → Option String
  | some s => if s = "" then none else some s
  | none => none

/-- Python `a or b` for optional strings already filtered through
`truthyStr`. -/
def pyOrStr : Option String → Option String → Option String
  | some s, _ => some s
  | none, b => b

mutual

/-- Descendants of an element (excluding the element itself) satisfying `p`,
in document (pre-)order.  This is ElementTree `findall('.//…')`. -/
def descP (p : Elem → Bool) : Elem → List Elem
  | .mk _ _ _ cs => descListP p cs

def descListP (p : Elem → Bool) : List Elem → List Elem
  | [] => []
  | c :: cs => (if p c then [c] else []) ++ descP p c ++ descListP p cs

end

/-- ElementTree `findall('.//prefix:local', NS)` on qualified names. -/
def findallDesc (e : Elem) (q : QName) : List Elem :=
  descP (fun c => c.tag == q) e

/-- ElementTree `find('.//prefix:local', NS)`: first descendant in document
order. -/
def findDesc (e : Elem) (q : QName) : Option Elem :=
  (findallDesc e q).head?

/-- ElementTree `findall('.//\x7b*\x7dlocal')`: descendants matched on the local
name alone, any namespace. -/
def findallDescLoc (e : Elem) (loc : String) : List Elem :=
  descP (fun c => c.tag.loc == loc) e

mutual

/-- Size measure for the nested tree, used for termination of the
transpiler's recursion. -/
def esize : Elem → Nat
  | .mk _ _ _ cs => 1 + lsize cs

def lsize : List Elem → Nat
  | [] => 0
  | c :: cs => esize c + lsize cs

end

theorem esize_pos (e : Elem) : 0 < esize e := by
  cases e with
  | mk t a tx cs => simp [esize]

theorem lsize_le_of_mem {c : Elem} {cs : List Elem} (h : c ∈ cs) :
    esize c ≤ lsize cs := by
  induction cs with
  | nil => cases h
  | cons a as ih =>
    rcases List.mem_cons.mp h with h' | h'
    · subst h'; simp [lsize]
    · have := ih h'
      simp [lsize]
      omega

theorem esize_lt_of_mem_children {c e : Elem} (h : c ∈ e.children) :
    esize c < esize e := by
  cases e with
  | mk t a tx cs =>
    simp [Elem.children] at h
    have := lsize_le_of_mem h
    simp [esize]
    omega

mutual

theorem esize_le_of_mem_descP {p : Elem → Bool} :
    ∀ (e : Elem) (x : Elem), x ∈ descP p e → esize x < esize e
  | .mk t a tx cs, x, h => by
    have h' : x ∈ descListP p cs := by simpa [descP] using h
    have := lsize_le_of_mem_descListP cs x h'
    simp [esize]
    omega

theorem lsize_le_of_mem_descListP {p : Elem → Bool} :
    ∀ (cs : List Elem) (x : Elem), x ∈ descListP p cs → esize x ≤ lsize cs
  | [], x, h => by simp [descListP] at h
  | c :: cs, x, h => by
    simp only [descListP, List.mem_append] at h
    rcases h with (h | h) | h
    · have : x = c := by
        by_cases hp : p c
        · simpa [hp] using h
        · simp [hp] at h
      subst this
      simp [lsize]
    · have := esize_le_of_mem_descP c x h
      simp [lsize]
      omega
    · have := lsize_le_of_mem_descListP cs x h
      have hc := esize_pos c
      simp [lsize]
      omega

end

theorem esize_lt_of_mem_desc {p : Elem → Bool} {x e : Elem}
    (h : x ∈ descP p e) : esize x < esize e :=
  esize_le_of_mem_descP e x h

theorem esize_lt_of_mem_findallDesc {x e : Elem} {q : QName}
    (h : x ∈ findallDesc e q) : esize x < esize e :=
  esize_lt_of_mem_desc h

theorem findChild_mem {e n : Elem} {q : QName} (h : findChild e q = some n) :
    n ∈ e.children :=
  List.mem_of_find?_eq_some h

/-- Recurring source pattern (fraction numerator/denominator lookup): direct
child by qualified tag first and, failing that, the first direct child whose
unqualified local name matches. -/
def findChildQualOrLocal (node : Elem) (q : QName) (loc : String) : Option Elem :=
  match findChild node q with
  | some n => some n
  | none => node.children.find? (fun c => strip_ns c.tag == loc)

theorem findChildQualOrLocal_mem {node n : Elem} {q : QName} {loc : String}
    (h : findChildQualOrLocal node q loc = some n) : n ∈ node.children := by
  unfold findChildQualOrLocal at h
  rcases hf : findChild node q with _ | m
  · rw [hf] at h
    exact List.mem_of_find?_eq_some h
  · rw [hf] at h
    cases h
    exact findChild_mem hf

theorem esize_lt_of_child_child {c n e : Elem} (hn : n ∈ e.children)
    (hc : c ∈ n.children) : esize c < esize e :=
  (esize_lt_of_mem_children hc).trans (esize_lt_of_mem_children hn)

/-- Python truthiness of an optional ElementTree element, as used by
`find(...) or find(...)` in the n-ary operator case: an element with no
children is falsy. -/
def pyOrElem : Option Elem → Option Elem → Option Elem
  | some x, y => if x.children.isEmpty then y else some x
  | none, y => y

/-- Characters matched by the Python regex class `[\s　]` and by
`str.strip()` / `str.isspace()` (the practically occurring part of the
Unicode whitespace set). -/
def pyIsSpace (c : Char) : Bool :=
  c == ' ' || c == '\t' || c == '\n' || c == '\r' || c == '\x0b' || c == '\x0c' ||
  c == '\x1c' || c == '\x1d' || c == '\x1e' || c == '\x1f' || c == '\x85' ||
  c == ' ' || c == ' ' ||
  (decide (' ' ≤ c) && decide (c ≤ ' ')) ||
  c == ' ' || c == ' ' || c == ' ' || c == ' ' || c == '　'

/-- Python `str.strip()`. -/
def pyStrip (s : String) : String :=
  String.mk (((s.toList.dropWhile pyIsSpace).reverse.dropWhile pyIsSpace).reverse)

/-- Python `str.lower()` (ASCII part; the strings it is applied to in the
source are ASCII or symbols unaffected by lowering). -/
def pyLower (s : String) : String :=
  String.mk (s.toList.map Char.toLower)

/-- Python `str.startswith`. -/
def pyStartsWith (s pre : String) : Bool :=
  pre.toList.isPrefixOf s.toList

/-- Python `str.endswith`. -/
def pyEndsWith (s suf : String) : Bool :=
  suf.toList.isSuffixOf s.toList

def containsAux (pat : List Char) : List Char → Bool
  | [] => List.isPrefixOf pat []
  | c :: cs => List.isPrefixOf pat (c :: cs) || containsAux pat cs

/-- Python `sub in s` substring test. -/
def pyContains (s sub : String) : Bool :=
  containsAux sub.toList s.toList

/-- Python `int` on a string of ASCII digits. -/
def digitsToNat (l : List Char) : Nat :=
  l.foldl (fun n c => n * 10 + (c.toNat - '0'.toNat)) 0

/-- Source `has_underline_format`: a run has an underline when its direct
`w:rPr` child contains a `w:u` child. -/
def has_underline_format (r : Elem) : Bool :=
  match findChild r ⟨wNS, "rPr"⟩ with
  | some rPr => (findChild rPr ⟨wNS, "u"⟩).isSome
  | none => false

/-- Underlined text rewriting of `text_of_run`: the regex
`re.sub(r'[\s　]', '_', t)` replaces every whitespace character by an
underscore. -/
def underscoreSpaces (s : String) : String :=
  String.mk (s.toList.map (fun c => if pyIsSpace c then '_' else c))

/-- Source `text_of_run`: concatenate the non-empty texts of all `w:t`
descendants (underscore-rewritten when the run is underlined), then one
newline per `w:br` descendant (the source appends all break newlines after
all text parts, in two separate loops). -/
def text_of_run (r : Elem) : String :=
  let underlined := has_underline_format r
  let tparts := (findallDesc r ⟨wNS, "t"⟩).filterMap
    (fun t => (truthyStr t.text).map (fun s => if underlined then underscoreSpaces s else s))
  let brs := (findallDesc r ⟨wNS, "br"⟩).map (fun _ => "\n")
  String.join (tparts ++ brs)

/-- Source `get_run_vertical_align`. -/
def get_run_vertical_align (r : Elem) : Option String :=
  match findChild r ⟨wNS, "rPr"⟩ with
  | some rPr =>
    match findChild rPr ⟨wNS, "vertAlign"⟩ with
    | some va => getAttr va ⟨wNS, "val"⟩
    | none => none
  | none => none

/-- Source `node_text_content`: join the non-empty texts of the `m:t`
descendants; when there are none, fall back to the `w:t` descendants; `None`
gives the empty string. -/
def node_text_content : Option Elem → String
  | none => ""
  | some node =>
    let mtexts := (findallDesc node ⟨mNS, "t"⟩).filterMap (fun t => truthyStr t.text)
    if mtexts ≠ [] then String.join mtexts
    else String.join ((findallDesc node ⟨wNS, "t"⟩).filterMap (fun t => truthyStr t.text))

/-- The `operator_map` table of `convert_math_operator`; every key is a
single character. -/
def operatorMap : List (Char × String) :=
  [('×', " \\times "), ('⋅', " \\cdot "), ('÷', " \\div "), ('±', " \\pm "),
   ('∓', " \\mp "), ('≤', " \\leq "), ('≥', " \\geq "), ('≠', " \\neq "),
   ('≈', " \\approx "), ('∞', " \\infty "), ('∑', " \\sum "), ('∏', " \\prod "),
   ('∫', " \\int "), ('√', " \\sqrt "), ('α', " \\alpha "), ('β', " \\beta "),
   ('γ', " \\gamma "), ('δ', " \\delta "), ('π', " \\pi "), ('θ', " \\theta "),
   ('λ', " \\lambda "), ('μ', " \\mu "), ('σ', " \\sigma "), ('φ', " \\phi "),
   ('ω', " \\omega ")]

/-- The final `re.sub(r'÷(\d+)', r' \\div \1', text)` of
`convert_math_operator`: a `÷` immediately followed by a digit becomes
` \div ` (the digits themselves are kept by the back-reference).  After the
table substitutions no `÷` remains, so in the composed function this pass is
the identity, but it is transcribed nonetheless. -/
def divDigitAux : List Char → List Char
  | '÷' :: c :: rest =>
    if c.isDigit then " \\div ".toList ++ c :: divDigitAux rest
    else '÷' :: divDigitAux (c :: rest)
  | c :: rest => c :: divDigitAux rest
  | [] => []

/-- Source `convert_math_operator`.  The source performs 25 sequential
whole-string `str.replace` passes; since every pattern is a single character
and no replacement string contains any pattern character, the sequence is
equal to one simultaneous character-by-character substitution, which is how
it is expressed here; then the `÷`-digit rewrite runs. -/
def convert_math_operator (text : String) : String :=
  String.mk (divDigitAux ((text.toList.map
    (fun c => match operatorMap.lookup c with
              | some r => r.toList
              | none => [c])).join))

/-- Source `omml_to_latex`: OMML-to-LaTeX conversion by dispatch on the
stripped tag name.  Every recursive call descends strictly into the tree, so
the function is total (the claim "never raises" of the source's failure
semantics corresponds to totality of this definition).  Literal braces in the
emitted LaTeX are written with `\x7b`/`\x7d` escapes. -/
def omml_to_latex (node : Elem) : String :=
  let tag := strip_ns node.tag
  if tag = "oMath" ∨ tag = "oMathPara" then
    String.join (node.children.attach.map (fun c => omml_to_latex c.1))
  else if tag = "r" ∨ tag = "m:r" then
    let txt := node_text_content (some node)
    match
      (match findChild node ⟨wNS, "rPr"⟩ with
       | some rPr =>
         match findChild rPr ⟨wNS, "vertAlign"⟩ with
         | some va =>
           match getAttr va ⟨wNS, "val"⟩ with
           | some v =>
             if v = "superscript" then some ("^\x7b" ++ convert_math_operator txt ++ "\x7d")
             else if v = "subscript" then some ("_\x7b" ++ convert_math_operator txt ++ "\x7d")
             else none
           | none => none
         | none => none
       | none => none) with
    | some s => s
    | none =>
      if txt ≠ "" then convert_math_operator txt
      else String.join (node.children.attach.map (fun c => omml_to_latex c.1))
  else if tag = "t" ∨ tag = "m:t" then
    convert_math_operator (node.text.getD "")
  else if tag = "f" ∨ tag = "frac" then
    "\\frac\x7b" ++
    (match hn : findChildQualOrLocal node ⟨mNS, "num"⟩ "num" with
     | some n => String.join (n.children.attach.map (fun c => omml_to_latex c.1))
     | none => "") ++
    "\x7d\x7b" ++
    (match hd : findChildQualOrLocal node ⟨mNS, "den"⟩ "den" with
     | some n => String.join (n.children.attach.map (fun c => omml_to_latex c.1))
     | none => "") ++
    "\x7d"
  else if tag = "num" ∨ tag = "den" then
    String.join (node.children.attach.map (fun c => omml_to_latex c.1))
  else if tag = "sSup" then
    (match hb : findChild node ⟨mNS, "base"⟩ with
     | some n => String.join (n.children.attach.map (fun c => omml_to_latex c.1))
     | none => "") ++
    "^\x7b" ++
    (match hs : findChild node ⟨mNS, "sup"⟩ with
     | some n => String.join (n.children.attach.map (fun c => omml_to_latex c.1))
     | none => "") ++
    "\x7d"
  else if tag = "sSub" then
    (match hb : findChild node ⟨mNS, "base"⟩ with
     | some n => String.join (n.children.attach.map (fun c => omml_to_latex c.1))
     | none => "") ++
    "_\x7b" ++
    (match hs : findChild node ⟨mNS, "sub"⟩ with
     | some n => String.join (n.children.attach.map (fun c => omml_to_latex c.1))
     | none => "") ++
    "\x7d"
  else if tag = "sSupSub" then
    (match hb : findChild node ⟨mNS, "base"⟩ with
     | some n => String.join (n.children.attach.map (fun c => omml_to_latex c.1))
     | none => "") ++
    "_\x7b" ++
    (match hs : findChild node ⟨mNS, "sub"⟩ with
     | some n => String.join (n.children.attach.map (fun c => omml_to_latex c.1))
     | none => "") ++
    "\x7d^\x7b" ++
    (match hs : findChild node ⟨mNS, "sup"⟩ with
     | some n => String.join (n.children.attach.map (fun c => omml_to_latex c.1))
     | none => "") ++
    "\x7d"
  else if tag = "rad" then
    let deg_l :=
      match hdeg : findChild node ⟨mNS, "deg"⟩ with
      | some n => String.join (n.children.attach.map (fun c => omml_to_latex c.1))
      | none => ""
    let rad_l :=
      match hrad : findChild node ⟨mNS, "radicand"⟩ with
      | some n => String.join (n.children.attach.map (fun c => omml_to_latex c.1))
      | none => ""
    if deg_l ≠ "" then "\\sqrt[" ++ deg_l ++ "]\x7b" ++ rad_l ++ "\x7d"
    else "\\sqrt\x7b" ++ rad_l ++ "\x7d"
  else if tag = "nary" then
    let op_l := node_text_content
      (pyOrElem (findDesc node ⟨mNS, "chr"⟩) (findDesc node ⟨mNS, "op"⟩))
    let lower := String.join ((findallDesc node ⟨mNS, "low"⟩).attach.map
      (fun c => omml_to_latex c.1))
    let upper := String.join ((findallDesc node ⟨mNS, "up"⟩).attach.map
      (fun c => omml_to_latex c.1))
    let op_tex :=
      if pyStrip op_l = "∑" then "\\sum"
      else if pyStrip op_l = "∫" then "\\int"
      else if pyStrip op_l = "Π" then "\\prod"
      else pyStrip op_l
    if lower ≠ "" ∧ upper ≠ "" then
      op_tex ++ "_\x7b" ++ lower ++ "\x7d^\x7b" ++ upper ++ "\x7d"
    else if lower ≠ "" then op_tex ++ "_\x7b" ++ lower ++ "\x7d"
    else op_tex
  else if tag = "acc" then
    let chr_text := node_text_content (findDesc node ⟨mNS, "chr"⟩)
    let inner :=
      match hbase : findChild node ⟨mNS, "e"⟩ with
      | some n => String.join (n.children.attach.map (fun c => omml_to_latex c.1))
      | none => ""
    if pyContains (pyLower chr_text) "bar" ∨ pyContains chr_text "¯" then
      "\\overline\x7b" ++ inner ++ "\x7d"
    else if pyContains (pyLower chr_text) "hat" then
      "\\hat\x7b" ++ inner ++ "\x7d"
    else
      "\\overset\x7b" ++ chr_text ++ "\x7d\x7b" ++ inner ++ "\x7d"
  else
    String.join (node.children.attach.map (fun c => omml_to_latex c.1))
termination_by esize node
decreasing_by
  all_goals
    first
    | exact esize_lt_of_mem_children c.2
    | exact esize_lt_of_mem_findallDesc c.2
    | exact esize_lt_of_child_child (findChild_mem (by assumption)) c.2
    | exact esize_lt_of_child_child (findChildQualOrLocal_mem (by assumption)) c.2

theorem attach_map_fn {α β : Type _} (l : List α) (f : α → β) :
    (l.attach.map (fun c => f c.1)) = l.map f := by
  rw [List.attach, List.attachWith, List.map_pmap]
  exact List.pmap_eq_map _ _ _ _

/-- Join of the transpiled children, the pervasive fallback expression
`''.join(omml_to_latex(child) for child in node)` of the source. -/
def ommlChildren (node : Elem) : String :=
  String.join (node.children.map omml_to_latex)

/-- `''.join(omml_to_latex(c) for c in g)` when the group `g` was found,
`''` when it is absent — the source's "missing child degrades to an empty
slot" pattern. -/
def ommlOpt : Option Elem → String
  | some n => ommlChildren n
  | none => ""

/-- The superscript/subscript wrapping of the run case of `omml_to_latex`
(lines: `rPr`/`vertAlign`/`val` lookup). -/
def runScript (node : Elem) : Option String :=
  match findChild node ⟨wNS, "rPr"⟩ with
  | some rPr =>
    match findChild rPr ⟨wNS, "vertAlign"⟩ with
    | some va =>
      match getAttr va ⟨wNS, "val"⟩ with
      | some v =>
        if v = "superscript" then
          some ("^\x7b" ++ convert_math_operator (node_text_content (some node)) ++ "\x7d")
        else if v = "subscript" then
          some ("_\x7b" ++ convert_math_operator (node_text_content (some node)) ++ "\x7d")
        else none
      | none => none
    | none => none
  | none => none

/-- Operator character of an n-ary node after the truthiness-based
`find('.//m:chr') or find('.//m:op')` lookup and the fixed three-entry
mapping table. -/
def naryOpTex (node : Elem) : String :=
  let op_l := node_text_content
    (pyOrElem (findDesc node ⟨mNS, "chr"⟩) (findDesc node ⟨mNS, "op"⟩))
  if pyStrip op_l = "∑" then "\\sum"
  else if pyStrip op_l = "∫" then "\\int"
  else if pyStrip op_l = "Π" then "\\prod"
  else pyStrip op_l

def naryLower (node : Elem) : String :=
  String.join ((findallDesc node ⟨mNS, "low"⟩).map omml_to_latex)

def naryUpper (node : Elem) : String :=
  String.join ((findallDesc node ⟨mNS, "up"⟩).map omml_to_latex)

theorem omml_eq_oMath (node : Elem)
    (h : strip_ns node.tag = "oMath" ∨ strip_ns node.tag = "oMathPara") :
    omml_to_latex node = ommlChildren node := by
  rw [omml_to_latex, if_pos h, ommlChildren, attach_map_fn]

theorem omml_eq_run (node : Elem)
    (h : strip_ns node.tag = "r" ∨ strip_ns node.tag = "m:r") :
    omml_to_latex node =
      match runScript node with
      | some s => s
      | none =>
        if node_text_content (some node) ≠ "" then
          convert_math_operator (node_text_content (some node))
        else ommlChildren node := by
  rw [omml_to_latex]
  have h1 : ¬ (strip_ns node.tag = "oMath" ∨ strip_ns node.tag = "oMathPara") := by
    rcases h with h | h <;> rw [h] <;> decide
  rw [if_neg h1, if_pos h]
  unfold runScript
  rcases hr : findChild node ⟨wNS, "rPr"⟩ with _ | rPr
  · simp [ommlChildren, attach_map_fn]
  · rcases hv : findChild rPr ⟨wNS, "vertAlign"⟩ with _ | va
    · simp [hv, ommlChildren, attach_map_fn]
    · rcases hval : getAttr va ⟨wNS, "val"⟩ with _ | v
      · simp [hv, hval, ommlChildren, attach_map_fn]
      · by_cases hsup : v = "superscript"
        · simp [hv, hval, hsup]
        · by_cases hsub : v = "subscript" <;>
            simp [hv, hval, hsup, hsub, ommlChildren, attach_map_fn]

theorem omml_eq_t (node : Elem)
    (h : strip_ns node.tag = "t" ∨ strip_ns node.tag = "m:t") :
    omml_to_latex node = convert_math_operator (node.text.getD "") := by
  rw [omml_to_latex]
  have h1 : ¬ (strip_ns node.tag = "oMath" ∨ strip_ns node.tag = "oMathPara") := by
    rcases h with h | h <;> rw [h] <;> decide
  have h2 : ¬ (strip_ns node.tag = "r" ∨ strip_ns node.tag = "m:r") := by
    rcases h with h | h <;> rw [h] <;> decide
  rw [if_neg h1, if_neg h2, if_pos h]

theorem omml_eq_frac (node : Elem)
    (h : strip_ns node.tag = "f" ∨ strip_ns node.tag = "frac") :
    omml_to_latex node =
      "\\frac\x7b" ++ ommlOpt (findChildQualOrLocal node ⟨mNS, "num"⟩ "num") ++
      "\x7d\x7b" ++ ommlOpt (findChildQualOrLocal node ⟨mNS, "den"⟩ "den") ++ "\x7d" := by
  rw [omml_to_latex]
  have h1 : ¬ (strip_ns node.tag = "oMath" ∨ strip_ns node.tag = "oMathPara") := by
    rcases h with h | h <;> rw [h] <;> decide
  have h2 : ¬ (strip_ns node.tag = "r" ∨ strip_ns node.tag = "m:r") := by
    rcases h with h | h <;> rw [h] <;> decide
  have h3 : ¬ (strip_ns node.tag = "t" ∨ strip_ns node.tag = "m:t") := by
    rcases h with h | h <;> rw [h] <;> decide
  rw [if_neg h1, if_neg h2, if_neg h3, if_pos h]
  rcases hn : findChildQualOrLocal node ⟨mNS, "num"⟩ "num" with _ | n <;>
    rcases hd : findChildQualOrLocal node ⟨mNS, "den"⟩ "den" with _ | d <;>
      simp [ommlOpt, ommlChildren, attach_map_fn]

theorem omml_eq_numden (node : Elem)
    (h : strip_ns node.tag = "num" ∨ strip_ns node.tag = "den") :
    omml_to_latex node = ommlChildren node := by
  rw [omml_to_latex]
  rw [if_neg (by rcases h with h | h <;> rw [h] <;> decide),
      if_neg (by rcases h with h | h <;> rw [h] <;> decide),
      if_neg (by rcases h with h | h <;> rw [h] <;> decide),
      if_neg (by rcases h with h | h <;> rw [h] <;> decide),
      if_pos h, ommlChildren, attach_map_fn]

theorem omml_eq_sSup (node : Elem) (h : strip_ns node.tag = "sSup") :
    omml_to_latex node =
      ommlOpt (findChild node ⟨mNS, "base"⟩) ++ "^\x7b" ++
      ommlOpt (findChild node ⟨mNS, "sup"⟩) ++ "\x7d" := by
  rw [omml_to_latex]
  rw [if_neg (by rw [h]; decide), if_neg (by rw [h]; decide), if_neg (by rw [h]; decide),
      if_neg (by rw [h]; decide), if_neg (by rw [h]; decide), if_pos h]
  rcases hb : findChild node ⟨mNS, "base"⟩ with _ | b <;>
    rcases hs : findChild node ⟨mNS, "sup"⟩ with _ | s <;>
      simp [ommlOpt, ommlChildren, attach_map_fn]

theorem omml_eq_sSub (node : Elem) (h : strip_ns node.tag = "sSub") :
    omml_to_latex node =
      ommlOpt (findChild node ⟨mNS, "base"⟩) ++ "_\x7b" ++
      ommlOpt (findChild node ⟨mNS, "sub"⟩) ++ "\x7d" := by
  rw [omml_to_latex]
  rw [if_neg (by rw [h]; decide), if_neg (by rw [h]; decide), if_neg (by rw [h]; decide),
      if_neg (by rw [h]; decide), if_neg (by rw [h]; decide), if_neg (by rw [h]; decide),
      if_pos h]
  rcases hb : findChild node ⟨mNS, "base"⟩ with _ | b <;>
    rcases hs : findChild node ⟨mNS, "sub"⟩ with _ | s <;>
      simp [ommlOpt, ommlChildren, attach_map_fn]

theorem omml_eq_sSupSub (node : Elem) (h : strip_ns node.tag = "sSupSub") :
    omml_to_latex node =
      ommlOpt (findChild node ⟨mNS, "base"⟩) ++ "_\x7b" ++
      ommlOpt (findChild node ⟨mNS, "sub"⟩) ++ "\x7d^\x7b" ++
      ommlOpt (findChild node ⟨mNS, "sup"⟩) ++ "\x7d" := by
  rw [omml_to_latex]
  rw [if_neg (by rw [h]; decide), if_neg (by rw [h]; decide), if_neg (by rw [h]; decide),
      if_neg (by rw [h]; decide), if_neg (by rw [h]; decide), if_neg (by rw [h]; decide),
      if_neg (by rw [h]; decide), if_pos h]
  rcases hb : findChild node ⟨mNS, "base"⟩ with _ | b <;>
    rcases hs : findChild node ⟨mNS, "sub"⟩ with _ | s <;>
      rcases hs2 : findChild node ⟨mNS, "sup"⟩ with _ | s2 <;>
        simp [ommlOpt, ommlChildren, attach_map_fn]

theorem omml_eq_rad (node : Elem) (h : strip_ns node.tag = "rad") :
    omml_to_latex node =
      (if ommlOpt (findChild node ⟨mNS, "deg"⟩) ≠ "" then
        "\\sqrt[" ++ ommlOpt (findChild node ⟨mNS, "deg"⟩) ++ "]\x7b" ++
        ommlOpt (findChild node ⟨mNS, "radicand"⟩) ++ "\x7d"
      else "\\sqrt\x7b" ++ ommlOpt (findChild node ⟨mNS, "radicand"⟩) ++ "\x7d") := by
  rw [omml_to_latex]
  rw [if_neg (by rw [h]; decide), if_neg (by rw [h]; decide), if_neg (by rw [h]; decide),
      if_neg (by rw [h]; decide), if_neg (by rw [h]; decide), if_neg (by rw [h]; decide),
      if_neg (by rw [h]; decide), if_neg (by rw [h]; decide), if_pos h]
  rcases hdeg : findChild node ⟨mNS, "deg"⟩ with _ | d <;>
    rcases hrad : findChild node ⟨mNS, "radicand"⟩ with _ | rd <;>
      simp [ommlOpt, ommlChildren, attach_map_fn]

theorem omml_eq_nary (node : Elem) (h : strip_ns node.tag = "nary") :
    omml_to_latex node =
      (if naryLower node ≠ "" ∧ naryUpper node ≠ "" then
        naryOpTex node ++ "_\x7b" ++ naryLower node ++ "\x7d^\x7b" ++ naryUpper node ++ "\x7d"
      else if naryLower node ≠ "" then
        naryOpTex node ++ "_\x7b" ++ naryLower node ++ "\x7d"
      else naryOpTex node) := by
  rw [omml_to_latex]
  rw [if_neg (by rw [h]; decide), if_neg (by rw [h]; decide), if_neg (by rw [h]; decide),
      if_neg (by rw [h]; decide), if_neg (by rw [h]; decide), if_neg (by rw [h]; decide),
      if_neg (by rw [h]; decide), if_neg (by rw [h]; decide), if_neg (by rw [h]; decide),
      if_pos h]
  simp only [attach_map_fn]
  simp only [naryOpTex, naryLower, naryUpper]

theorem omml_eq_acc (node : Elem) (h : strip_ns node.tag = "acc") :
    omml_to_latex node =
      (let chr_text := node_text_content (findDesc node ⟨mNS, "chr"⟩)
       let inner := ommlOpt (findChild node ⟨mNS, "e"⟩)
       if pyContains (pyLower chr_text) "bar" ∨ pyContains chr_text "¯" then
         "\\overline\x7b" ++ inner ++ "\x7d"
       else if pyContains (pyLower chr_text) "hat" then
         "\\hat\x7b" ++ inner ++ "\x7d"
       else
         "\\overset\x7b" ++ chr_text ++ "\x7d\x7b" ++ inner ++ "\x7d") := by
  rw [omml_to_latex]
  rw [if_neg (by rw [h]; decide), if_neg (by rw [h]; decide), if_neg (by rw [h]; decide),
      if_neg (by rw [h]; decide), if_neg (by rw [h]; decide), if_neg (by rw [h]; decide),
      if_neg (by rw [h]; decide), if_neg (by rw [h]; decide), if_neg (by rw [h]; decide),
      if_neg (by rw [h]; decide), if_pos h]
  rcases hbase : findChild node ⟨mNS, "e"⟩ with _ | b <;>
    simp [hbase, ommlOpt, ommlChildren, attach_map_fn]

theorem omml_eq_default (node : Elem)
    (h : strip_ns node.tag ∉ (["oMath", "oMathPara", "r", "m:r", "t", "m:t", "f", "frac",
      "num", "den", "sSup", "sSub", "sSupSub", "rad", "nary", "acc"] : List String)) :
    omml_to_latex node = ommlChildren node := by
  simp only [List.mem_cons, List.not_mem_nil, or_false, not_or] at h
  obtain ⟨h1, h2, h3, h4, h5, h6, h7, h8, h9, h10, h11, h12, h13, h14, h15, h16⟩ := h
  rw [omml_to_latex]
  rw [if_neg (not_or.mpr ⟨h1, h2⟩), if_neg (not_or.mpr ⟨h3, h4⟩),
      if_neg (not_or.mpr ⟨h5, h6⟩), if_neg (not_or.mpr ⟨h7, h8⟩),
      if_neg (not_or.mpr ⟨h9, h10⟩), if_neg h11, if_neg h12, if_neg h13,
      if_neg h14, if_neg h15, if_neg h16, ommlChildren, attach_map_fn]

/-- Content item: the tagged tuples `('text', …)`, `('math', …)`,
`('superscript', …)`, `('subscript', …)`, `('image', (id, name))`,
`('wmf', (id, name))` produced by `extract_paragraph_content`. -/
inductive Item : Type where
  | text : String → Item
  | math : String → Item
  | sup : String → Item
  | sub : String → Item
  | image : String → String → Item
  | wmf : String → String → Item
deriving DecidableEq, Repr

/-- The attribute-key string Python sees for an attribute name: ElementTree
renders a qualified attribute as `\x7buri\x7dlocal`. -/
def attrKeyStr (q : QName) : String :=
  if q.ns = "" then q.loc else "\x7b" ++ q.ns ++ "\x7d" ++ q.loc

/-- The relationship-id attribute test of the `imagedata` loop:
`attr_name.endswith('\x7did') or attr_name == 'r:id' or
attr_name.lower().endswith(':id')`. -/
def isRelIdAttr (q : QName) : Bool :=
  pyEndsWith (attrKeyStr q) "\x7did" || attrKeyStr q == "r:id" ||
    pyEndsWith (pyLower (attrKeyStr q)) ":id"

/-- The `w:r` run case of `extract_paragraph_content` when the run contains
no nested math: text item (classified by vertical alignment), then at most
one inline-drawing image item, then one item per `imagedata` descendant. -/
def runItems (node : Elem) : List Item :=
  let textItems :=
    let text := text_of_run node
    if text ≠ "" then
      match get_run_vertical_align node with
      | some "superscript" => [Item.sup text]
      | some "subscript" => [Item.sub text]
      | _ => [Item.text text]
    else []
  let imageItems :=
    match findDesc node ⟨wNS, "drawing"⟩ with
    | none => []
    | some drawing =>
      let inl0 :=
        match findDesc drawing ⟨wpNS, "inline"⟩ with
        | some i => some i
        | none => findDesc drawing ⟨wpNS, "anchor"⟩
      match inl0 with
      | none => []
      | some inl =>
        let img_name :=
          match findDesc inl ⟨wpNS, "docPr"⟩ with
          | some docPr => (getAttr docPr ⟨"", "name"⟩).getD "Image"
          | none => "Image"
        match findDesc inl ⟨aNS, "blip"⟩ with
        | none => []
        | some blip =>
          match getAttr blip ⟨rNS, "embed"⟩ with
          | some embed => if embed ≠ "" then [Item.image embed img_name] else []
          | none => []
  let wmfItems :=
    (findallDescLoc node "imagedata").foldl (fun acc imagedata =>
      let rel_id := (imagedata.attrs.find? (fun ap => isRelIdAttr ap.1)).map (fun ap => ap.2)
      let img_name0 := pyOrStr
        (pyOrStr (truthyStr (getAttr imagedata ⟨"", "o:title"⟩))
                 (truthyStr (getAttr imagedata ⟨"", "title"⟩)))
        (truthyStr (getAttr imagedata ⟨"", "alt"⟩))
      match rel_id with
      | some rid =>
        if rid ≠ "" then
          acc ++ [Item.wmf rid (match img_name0 with | some nm => nm | none => "Image")]
        else acc
      | none => acc) []
  textItems ++ imageItems ++ wmfItems

mutual

/-- Source `extract_paragraph_content`.  The Python original threads an
identity-keyed `processed_nodes` set; on a tree (as produced by an XML
parse, where no element is shared) each node is reached at most once per
top-level call, so the set never suppresses a visit and is dropped from the
model. -/
def extract_paragraph_content : Elem → List Item
  | .mk t a tx cs =>
    let node : Elem := .mk t a tx cs
    let tag := strip_ns t
    if tag = "oMath" ∨ tag = "oMathPara" then
      let latex := pyStrip (omml_to_latex node)
      if latex ≠ "" then [Item.math latex] else []
    else if tag = "r" then
      let mathNodes := findallDesc node ⟨mNS, "oMath"⟩
      if mathNodes.isEmpty then runItems node
      else
        mathNodes.filterMap (fun mn =>
          let latex := pyStrip (omml_to_latex mn)
          if latex ≠ "" then some (Item.math latex) else none)
    else if tag = "tbl" then []
    else extractList cs

def extractList : List Elem → List Item
  | [] => []
  | c :: cs => extract_paragraph_content c ++ extractList cs

end

theorem extract_eq_children (node : Elem)
    (h : strip_ns node.tag ∉ (["oMath", "oMathPara", "r", "tbl"] : List String)) :
    extract_paragraph_content node =
      (node.children.map extract_paragraph_content).join := by
  cases node with
  | mk t a tx cs =>
    simp only [List.mem_cons, List.not_mem_nil, or_false, not_or, Elem.tag] at h
    obtain ⟨h1, h2, h3, h4⟩ := h
    rw [extract_paragraph_content]
    rw [if_neg (not_or.mpr ⟨h1, h2⟩), if_neg h3, if_neg h4]
    simp only [Elem.children]
    induction cs with
    | nil => simp [extractList]
    | cons c cs ih => simp [extractList, ih]

/-- The inner `while` of `merge_superscripts_subscripts`: scan the
consecutive leading superscript/subscript items, accumulating their texts
separately (in scan order), and return the accumulated superscript text,
the accumulated subscript text, and the remaining items. -/
def scanScripts : List Item → String × String × List Item
  | Item.sup s :: rest =>
    let r := scanScripts rest
    (s ++ r.1, r.2.1, r.2.2)
  | Item.sub s :: rest =>
    let r := scanScripts rest
    (r.1, s ++ r.2.1, r.2.2)
  | l => ("", "", l)

theorem scanScripts_rest_length (l : List Item) :
    (scanScripts l).2.2.length ≤ l.length := by
  induction l with
  | nil => simp [scanScripts]
  | cons a rest ih =>
    cases a <;> simp [scanScripts] <;> omega

/-- Source `merge_superscripts_subscripts`: a `text` item followed by at
least one script item with non-empty accumulated text folds into a single
`math` item; otherwise items pass through, lone scripts becoming wrapped
`math` items. -/
def merge_superscripts_subscripts : List Item → List Item
  | [] => []
  | Item.text c :: rest =>
    let s := scanScripts rest
    if s.1 ≠ "" ∨ s.2.1 ≠ "" then
      Item.math (c ++
        (if s.2.1 ≠ "" ∧ s.1 ≠ "" then "_\x7b" ++ s.2.1 ++ "\x7d^\x7b" ++ s.1 ++ "\x7d"
         else if s.2.1 ≠ "" then "_\x7b" ++ s.2.1 ++ "\x7d"
         else "^\x7b" ++ s.1 ++ "\x7d")) :: merge_superscripts_subscripts s.2.2
    else Item.text c :: merge_superscripts_subscripts rest
  | Item.math c :: rest => Item.math c :: merge_superscripts_subscripts rest
  | Item.sup c :: rest =>
    Item.math ("^\x7b" ++ c ++ "\x7d") :: merge_superscripts_subscripts rest
  | Item.sub c :: rest =>
    Item.math ("_\x7b" ++ c ++ "\x7d") :: merge_superscripts_subscripts rest
  | it :: rest => it :: merge_superscripts_subscripts rest
termination_by l => l.length
decreasing_by
  all_goals simp
  all_goals have := scanScripts_rest_length rest
  all_goals omega

/-- The two global image counters `PNG_COUNT` and `WMF_COUNT` of the source,
made an explicit state. -/
structure Counters where
  png : Nat
  wmf : Nat
deriving DecidableEq, Repr

/-- `Path(INPUT_PATH).stem` for the source's constant
`INPUT_PATH = "2222.docx"`. -/
def INPUT_STEM : String := "2222"

/-- Python `str.replace` with a single-character pattern (the only form the
paragraph renderers use, for `'\n'`). -/
def replaceChar (s : String) (c : Char) (rep : String) : String :=
  String.mk ((s.toList.map (fun x => if x = c then rep.toList else [x])).join)

/-- Source `paragraph_items_to_text` (used for table cells): render items to
plain text, bumping the image counters for image items, then rewrite
newlines to `<br/>` (or a space) and strip. -/
def paragraph_items_to_text (items : List Item) (join_with_br : Bool)
    (st : Counters) : String × Counters :=
  let folded := items.foldl (fun (acc : List String × Counters) it =>
    match it with
    | Item.text c => (acc.1 ++ [c], acc.2)
    | Item.math c => (acc.1 ++ ["$" ++ c ++ "$"], acc.2)
    | Item.image _ name =>
      (acc.1 ++ ["![" ++ name ++ "](../Images/" ++ INPUT_STEM ++
        "_images/PNG/image" ++ toString acc.2.png ++ ".png)"],
       Counters.mk (acc.2.png + 1) acc.2.wmf)
    | Item.wmf _ name =>
      (acc.1 ++ ["![" ++ name ++ "](../Images/" ++ INPUT_STEM ++
        "_images/WMF/image" ++ toString acc.2.wmf ++ ".wmf)"],
       Counters.mk acc.2.png (acc.2.wmf + 1))
    | Item.sup c => (acc.1 ++ [c], acc.2)
    | Item.sub c => (acc.1 ++ [c], acc.2)) ([], st)
  let text := String.join folded.1
  (if join_with_br then pyStrip (replaceChar text '\n' "<br/>")
   else pyStrip (replaceChar text '\n' " "), folded.2)

/-- Source `extract_cell_text`: extract + merge + render each direct `w:p`
child, keep the non-empty results, join with `<br/>`, strip. -/
def extract_cell_text (tc : Elem) (st : Counters) : String × Counters :=
  let folded := (tc.children.filter (fun c => c.tag == ⟨wNS, "p"⟩)).foldl
    (fun (acc : List String × Counters) p =>
      let items := merge_superscripts_subscripts (extract_paragraph_content p)
      let r := paragraph_items_to_text items true acc.2
      (if r.1 ≠ "" then acc.1 ++ [r.1] else acc.1, r.2)) ([], st)
  (pyStrip (String.intercalate "<br/>" folded.1), folded.2)

/-- The row-collection loop of `table_to_html`: one cell string per direct
`w:tc` child of each direct `w:tr` child; a row with no cells is not
recorded. -/
def tableRows (tbl : Elem) (st : Counters) : List (List String) × Counters :=
  (tbl.children.filter (fun c => c.tag == ⟨wNS, "tr"⟩)).foldl
    (fun (acc : List (List String) × Counters) tr =>
      let folded := (tr.children.filter (fun c => c.tag == ⟨wNS, "tc"⟩)).foldl
        (fun (acc2 : List String × Counters) tc =>
          let r := extract_cell_text tc acc2.2
          (acc2.1 ++ [r.1], r.2)) ([], acc.2)
      (if folded.1 ≠ [] then acc.1 ++ [folded.1] else acc.1, folded.2))
    ([], st)

/-- `max(len(r) for r in rows)` (for non-empty `rows`; the `0` base never
decides the value there since lengths are non-negative). -/
def maxCols (rows : List (List String)) : Nat :=
  (rows.map List.length).foldl max 0

/-- The padding step of `table_to_html`: every row is extended on the right
with empty strings up to the maximum row length. -/
def padRows (rows : List (List String)) : List (List String) :=
  rows.map (fun r => r ++ List.replicate (maxCols rows - r.length) "")

/-- The HTML assembly of `table_to_html` as the list `html_lines` (the rows
passed in are already padded). -/
def html_lines (rows : List (List String)) : List String :=
  let first_row := rows.headD []
  let header_is_present := first_row.all (fun cell => pyStrip cell != "")
  let body_rows := if header_is_present then rows.tail else rows
  ["<table border=\"1\">"]
  ++ (if header_is_present then
        ["  <thead>", "    <tr>"]
        ++ first_row.map (fun cell => "      <th>" ++ cell ++ "</th>")
        ++ ["    </tr>", "  </thead>"]
      else [])
  ++ ["  <tbody>"]
  ++ (body_rows.map (fun r =>
        ["    <tr>"] ++ r.map (fun cell => "      <td>" ++ cell ++ "</td>")
        ++ ["    </tr>"])).join
  ++ ["  </tbody>", "</table>"]

/-- Source `table_to_html`. -/
def table_to_html (tbl : Elem) (st : Counters) : String × Counters :=
  let r := tableRows tbl st
  if r.1 = [] then ("", r.2)
  else
    ("\n\n" ++ String.intercalate "\n" (html_lines (padRows r.1)) ++ "\n\n", r.2)

/-- The heading-style prefix of `paragraph_to_md`: when the paragraph's
`pStyle` value starts (case-insensitively) with `heading`, emit
`'#' * min(level, 6) + ' '`, where `level` is the integer formed by all the
decimal digits of the style value, defaulting to 1 when there are none.
(Python's `str.isdigit` also accepts some non-ASCII digit characters; those
are not modelled.) -/
def headingMarks (p : Elem) : String :=
  match findChild p ⟨wNS, "pPr"⟩ with
  | none => ""
  | some pPr =>
    match findChild pPr ⟨wNS, "pStyle"⟩ with
    | none => ""
    | some ps =>
      match getAttr ps ⟨wNS, "val"⟩ with
      | none => ""
      | some v =>
        if v ≠ "" ∧ pyStartsWith (pyLower v) "heading" then
          let ds := v.toList.filter Char.isDigit
          let level := if ds = [] then 1 else digitsToNat ds
          String.mk (List.replicate (min level 6) '#') ++ " "
        else ""

/-- The list-item test of `paragraph_to_md`: the paragraph's `pPr` has a
`numPr` child. -/
def hasNumPr (p : Elem) : Bool :=
  match findChild p ⟨wNS, "pPr"⟩ with
  | some pPr => (findChild pPr ⟨wNS, "numPr"⟩).isSome
  | none => false

/-- The content loop of `paragraph_to_md`, with `docx_path` and `output_dir`
supplied (as they are by `convert_document`), so the image branches are
active.  `docName` is `Path(docx_path).stem`. -/
def renderItems (docName : String) (only_math : Bool) :
    List Item → Counters → String × Counters
  | [], st => ("", st)
  | it :: rest, st =>
    let step : String × Counters :=
      match it with
      | Item.text c => (c, st)
      | Item.math c =>
        (if only_math then "\n\n$$\n" ++ c ++ "\n$$\n\n" else " $ " ++ c ++ " $ ", st)
      | Item.image _ name =>
        ("![" ++ name ++ "](../Images/" ++ docName ++ "_images/PNG/image" ++
          toString st.png ++ ".png)", Counters.mk (st.png + 1) st.wmf)
      | Item.wmf _ name =>
        ("![" ++ name ++ "](../Images/" ++ docName ++ "_images/WMF/image" ++
          toString st.wmf ++ ".wmf)", Counters.mk st.png (st.wmf + 1))
      | Item.sup c => ("^\x7b" ++ c ++ "\x7d", st)
      | Item.sub c => ("_\x7b" ++ c ++ "\x7d", st)
    let r := renderItems docName only_math rest step.2
    (step.1 ++ r.1, r.2)

/-- Whether a merged item is a `text` item with non-whitespace content
(`item[0] == 'text' and item[1].strip()`). -/
def isRealText : Item → Bool
  | Item.text c => pyStrip c != ""
  | _ => false

def isMathItem : Item → Bool
  | Item.math _ => true
  | _ => false

/-- Source `paragraph_to_md` (with `docx_path`/`output_dir` present):
heading prefix, extraction, merge, classification into display/inline math
mode, item rendering, and the list-marker prefix. -/
def paragraph_to_md (docName : String) (p : Elem) (st : Counters) :
    String × Counters :=
  let content_items := merge_superscripts_subscripts (extract_paragraph_content p)
  let has_text := content_items.any isRealText
  let has_math := content_items.any isMathItem
  let only_math := has_math && !has_text
  let r := renderItems docName only_math content_items st
  let line := headingMarks p ++ r.1
  (if hasNumPr p then "- " ++ line else line, r.2)

theorem ommlOpt_some (n : Elem) : ommlOpt (some n) = ommlChildren n := rfl

theorem ommlOpt_none : ommlOpt none = "" := rfl

/-- Concrete element builders used by the witnesses. -/
def mathText (s : String) : Elem := .mk ⟨mNS, "t"⟩ [] (some s) []

def mathRun (cs : List Elem) : Elem := .mk ⟨mNS, "r"⟩ [] none cs

def mathGroup (cs : List Elem) : Elem := .mk ⟨mNS, "oMath"⟩ [] none cs

def wText (s : String) : Elem := .mk ⟨wNS, "t"⟩ [] (some s) []

def wRun (cs : List Elem) : Elem := .mk ⟨wNS, "r"⟩ [] none cs

def paraEl (cs : List Elem) : Elem := .mk ⟨wNS, "p"⟩ [] none cs

def fracEx : Elem :=
  .mk ⟨mNS, "f"⟩ [] none
    [.mk ⟨mNS, "num"⟩ [] none [mathText "a"],
     .mk ⟨mNS, "den"⟩ [] none [mathText "b"]]

/-- C5: for every fraction node whose numerator group transpiles to `a` and
whose denominator group transpiles to `b`, the Math Transpiler emits exactly
`\frac\x7ba\x7d\x7bb\x7d`; the numerator/denominator groups are located first by the
qualified child tag and otherwise by an unqualified local-name match (the
`findChildQualOrLocal` lookup). -/
theorem frac_emits_exact (node : Elem) (a b : String)
    (h : strip_ns node.tag = "f" ∨ strip_ns node.tag = "frac")
    (ha : ommlOpt (findChildQualOrLocal node ⟨mNS, "num"⟩ "num") = a)
    (hb : ommlOpt (findChildQualOrLocal node ⟨mNS, "den"⟩ "den") = b) :
    omml_to_latex node = "\\frac\x7b" ++ a ++ "\x7d\x7b" ++ b ++ "\x7d" := by
  rw [omml_eq_frac node h, ha, hb]

/-- Witness for C5 on a concrete fraction `a / b`. -/
theorem frac_emits_exact_witness :
    omml_to_latex fracEx = "\\frac\x7ba\x7d\x7bb\x7d" := by
  have ha : ommlOpt (findChildQualOrLocal fracEx ⟨mNS, "num"⟩ "num") = "a" := by
    rw [show findChildQualOrLocal fracEx ⟨mNS, "num"⟩ "num" =
        some (Elem.mk ⟨mNS, "num"⟩ [] none [mathText "a"]) from rfl]
    rw [ommlOpt_some, ommlChildren]
    simp only [Elem.children, List.map_cons, List.map_nil]
    rw [omml_eq_t (mathText "a") (Or.inl rfl)]
    decide
  have hb : ommlOpt (findChildQualOrLocal fracEx ⟨mNS, "den"⟩ "den") = "b" := by
    rw [show findChildQualOrLocal fracEx ⟨mNS, "den"⟩ "den" =
        some (Elem.mk ⟨mNS, "den"⟩ [] none [mathText "b"]) from rfl]
    rw [ommlOpt_some, ommlChildren]
    simp only [Elem.children, List.map_cons, List.map_nil]
    rw [omml_eq_t (mathText "b") (Or.inl rfl)]
    decide
  exact frac_emits_exact fracEx "a" "b" (Or.inl rfl) ha hb

def unknownTagEx : Elem := .mk ⟨mNS, "borderBox"⟩ [] none [mathText "x"]

def fracNoDenEx : Elem :=
  .mk ⟨mNS, "f"⟩ [] none [.mk ⟨mNS, "num"⟩ [] none [mathText "a"]]

def naryEmptyEx : Elem := .mk ⟨mNS, "nary"⟩ [] none []

/-- C2: the Math Transpiler is total (its recursion terminates on every
subtree, so it never aborts), a node whose kind is not one of the handled
variants returns the concatenation of its children's transpiled text, a
fraction without a denominator group gets an empty string for that slot, and
an n-ary operator without an operator-character node gets an empty operator
(empty output when no limit groups are present either). -/
theorem omml_fallback_semantics (node : Elem) :
    (strip_ns node.tag ∉ (["oMath", "oMathPara", "r", "m:r", "t", "m:t", "f", "frac",
        "num", "den", "sSup", "sSub", "sSupSub", "rad", "nary", "acc"] : List String) →
      omml_to_latex node = String.join (node.children.map omml_to_latex))
    ∧ ((strip_ns node.tag = "f" ∨ strip_ns node.tag = "frac") →
        findChildQualOrLocal node ⟨mNS, "den"⟩ "den" = none →
        omml_to_latex node =
          "\\frac\x7b" ++ ommlOpt (findChildQualOrLocal node ⟨mNS, "num"⟩ "num") ++ "\x7d\x7b\x7d")
    ∧ (strip_ns node.tag = "nary" →
        pyOrElem (findDesc node ⟨mNS, "chr"⟩) (findDesc node ⟨mNS, "op"⟩) = none →
        findallDesc node ⟨mNS, "low"⟩ = [] →
        findallDesc node ⟨mNS, "up"⟩ = [] →
        omml_to_latex node = "") := by
  refine ⟨fun h => ?_, fun h hden => ?_, fun h hop hlow hup => ?_⟩
  · rw [omml_eq_default node h, ommlChildren]
  · rw [omml_eq_frac node h, hden, ommlOpt_none]
    rw [String.append_assoc, String.append_assoc, String.append_assoc]
    simp only [String.append_empty, ← String.append_assoc]
    conv_lhs => rw [String.append_assoc]
    rw [show ("\x7d\x7b" : String) ++ "\x7d" = "\x7d\x7b\x7d" from rfl]
  · rw [omml_eq_nary node h]
    have hl : naryLower node = "" := by rw [naryLower, hlow]; rfl
    have hu : naryUpper node = "" := by rw [naryUpper, hup]; rfl
    have ho : naryOpTex node = "" := by
      rw [naryOpTex, hop]
      decide
    simp [hl, hu, ho]

/-- Witness for C2: an unhandled `borderBox` node concatenates its children,
a denominator-less fraction yields `\frac\x7ba\x7d\x7b\x7d`, and a bare n-ary node
yields the empty string. -/
theorem omml_fallback_semantics_witness :
    omml_to_latex unknownTagEx = "x"
    ∧ omml_to_latex fracNoDenEx = "\\frac\x7ba\x7d\x7b\x7d"
    ∧ omml_to_latex naryEmptyEx = "" := by
  refine ⟨?_, ?_, ?_⟩
  · rw [(omml_fallback_semantics unknownTagEx).1 (by decide)]
    simp only [unknownTagEx, Elem.children, List.map_cons, List.map_nil]
    rw [omml_eq_t (mathText "x") (Or.inl rfl)]
    decide
  · rw [(omml_fallback_semantics fracNoDenEx).2.1 (Or.inl rfl) rfl]
    rw [show findChildQualOrLocal fracNoDenEx ⟨mNS, "num"⟩ "num" =
        some (Elem.mk ⟨mNS, "num"⟩ [] none [mathText "a"]) from rfl]
    rw [ommlOpt_some, ommlChildren]
    simp only [Elem.children, List.map_cons, List.map_nil]
    rw [omml_eq_t (mathText "a") (Or.inl rfl)]
    decide
  · exact (omml_fallback_semantics naryEmptyEx).2.2 rfl rfl rfl rfl

theorem foldl_max_init_le (l : List Nat) (a : Nat) : a ≤ l.foldl max a := by
  induction l generalizing a with
  | nil => simp
  | cons x xs ih => exact le_trans (le_max_left a x) (ih (max a x))

theorem le_foldl_max_of_mem {l : List Nat} {x : Nat} (a : Nat) (h : x ∈ l) :
    x ≤ l.foldl max a := by
  induction l generalizing a with
  | nil => cases h
  | cons y ys ih =>
    rcases List.mem_cons.mp h with h' | h'
    · subst h'
      exact le_trans (le_max_right a x) (foldl_max_init_le ys _)
    · exact ih _ h'

theorem foldl_max_eq_or_mem (l : List Nat) (a : Nat) :
    l.foldl max a = a ∨ l.foldl max a ∈ l := by
  induction l generalizing a with
  | nil => left; rfl
  | cons x xs ih =>
    rcases ih (max a x) with h | h
    · rcases Nat.le_total a x with hax | hxa
      · right
        rw [List.foldl_cons, h, Nat.max_eq_right hax]
        exact List.mem_cons_self x xs
      · left
        rw [List.foldl_cons, h]
        exact Nat.max_eq_left hxa
    · right
      rw [List.foldl_cons]
      exact List.mem_cons_of_mem x h

theorem length_le_maxCols {rows : List (List String)} {r : List String}
    (h : r ∈ rows) : r.length ≤ maxCols rows :=
  le_foldl_max_of_mem 0 (List.mem_map_of_mem List.length h)

theorem maxCols_attained {rows : List (List String)} (h : rows ≠ []) :
    ∃ r ∈ rows, r.length = maxCols rows := by
  rcases foldl_max_eq_or_mem (rows.map List.length) 0 with h0 | hm
  · rcases rows with _ | ⟨r0, rest⟩
    · exact absurd rfl h
    · refine ⟨r0, List.mem_cons_self r0 rest, ?_⟩
      have hle : r0.length ≤ maxCols (r0 :: rest) :=
        length_le_maxCols (List.mem_cons_self r0 rest)
      have : maxCols (r0 :: rest) = 0 := h0
      omega
  · rcases List.mem_map.mp hm with ⟨r, hr, hlen⟩
    exact ⟨r, hr, hlen⟩

theorem padRows_mem_length {rows : List (List String)} {r : List String}
    (h : r ∈ padRows rows) : r.length = maxCols rows := by
  rcases List.mem_map.mp h with ⟨r0, hr0, hpad⟩
  have hle := length_le_maxCols hr0
  subst hpad
  simp [List.length_replicate]
  omega

def tcE (cs : List Elem) : Elem := .mk ⟨wNS, "tc"⟩ [] none cs

def trE (cs : List Elem) : Elem := .mk ⟨wNS, "tr"⟩ [] none cs

def tblEx : Elem :=
  .mk ⟨wNS, "tbl"⟩ [] none
    [trE [tcE [], tcE [], tcE []], trE [tcE []], trE [tcE [], tcE []]]

/-- C6: after the padding step every row of the grid has the same length,
namely the maximum row length of the collected grid (which is attained by
some row), and each padded row is the original row with empty strings
appended on the right. -/
theorem padded_grid_rectangular (tbl : Elem) (st : Counters) :
    (∀ r ∈ padRows (tableRows tbl st).1, r.length = maxCols (tableRows tbl st).1)
    ∧ (∀ r ∈ (tableRows tbl st).1, r.length ≤ maxCols (tableRows tbl st).1)
    ∧ ((tableRows tbl st).1 ≠ [] →
        ∃ r ∈ (tableRows tbl st).1, r.length = maxCols (tableRows tbl st).1)
    ∧ (∀ (i : Nat) (r : List String), (tableRows tbl st).1[i]? = some r →
        (padRows (tableRows tbl st).1)[i]? =
          some (r ++ List.replicate (maxCols (tableRows tbl st).1 - r.length) "")) := by
  refine ⟨fun r hr => padRows_mem_length hr, fun r hr => length_le_maxCols hr,
    maxCols_attained, fun i r hi => ?_⟩
  rw [padRows, List.getElem?_map, hi]
  rfl

/-- Witness for C6 on a table whose three rows have 3, 1 and 2 cells. -/
theorem padded_grid_rectangular_witness :
    padRows (tableRows tblEx (Counters.mk 1 1)).1 =
      [["", "", ""], ["", "", ""], ["", "", ""]]
    ∧ (["", "", ""] : List String).length = maxCols (tableRows tblEx (Counters.mk 1 1)).1
    ∧ (∃ r ∈ (tableRows tblEx (Counters.mk 1 1)).1,
        r.length = maxCols (tableRows tblEx (Counters.mk 1 1)).1) :=
  ⟨by decide,
   (padded_grid_rectangular tblEx (Counters.mk 1 1)).1 ["", "", ""] (by decide),
   (padded_grid_rectangular tblEx (Counters.mk 1 1)).2.2.1 (by decide)⟩

theorem cellsFold_length (tcs : List Elem) :
    ∀ (acc : List String) (st : Counters),
      ((tcs.foldl (fun (acc2 : List String × Counters) tc =>
          let r := extract_cell_text tc acc2.2
          (acc2.1 ++ [r.1], r.2)) (acc, st)).1).length = acc.length + tcs.length := by
  induction tcs with
  | nil => intro acc st; simp
  | cons tc tcs ih =>
    intro acc st
    rw [List.foldl_cons]
    have := ih (acc ++ [(extract_cell_text tc st).1]) (extract_cell_text tc st).2
    simp only [List.length_append, List.length_singleton] at this
    simp only [this, List.length_cons]
    omega

theorem rowsFold_length (trs : List Elem) :
    ∀ (acc : List (List String)) (st : Counters),
      ((trs.foldl (fun (acc : List (List String) × Counters) tr =>
          let folded := (tr.children.filter (fun c => c.tag == (⟨wNS, "tc"⟩ : QName))).foldl
            (fun (acc2 : List String × Counters) tc =>
              let r := extract_cell_text tc acc2.2
              (acc2.1 ++ [r.1], r.2)) ([], acc.2)
          (if folded.1 ≠ [] then acc.1 ++ [folded.1] else acc.1, folded.2)) (acc, st)).1).length
        = acc.length + trs.countP
            (fun tr => !(tr.children.filter (fun c => c.tag == (⟨wNS, "tc"⟩ : QName))).isEmpty) := by
  induction trs with
  | nil => intro acc st; simp
  | cons tr trs ih =>
    intro acc st
    rw [List.foldl_cons, List.countP_cons]
    have hcells := cellsFold_length
      (tr.children.filter (fun c => c.tag == (⟨wNS, "tc"⟩ : QName))) [] st
    simp only [List.length_nil, Nat.zero_add] at hcells
    by_cases hne : (tr.children.filter (fun c => c.tag == (⟨wNS, "tc"⟩ : QName))) = []
    · have hempty :
          ((tr.children.filter (fun c => c.tag == (⟨wNS, "tc"⟩ : QName))).foldl
            (fun (acc2 : List String × Counters) tc =>
              let r := extract_cell_text tc acc2.2
              (acc2.1 ++ [r.1], r.2)) ([], st)).1 = [] := by
        rw [hne]
        rfl
      simp only [hempty, ne_eq, not_true_eq_false, if_false, hne]
      rw [ih]
      simp
    · have hlen0 :
          ((tr.children.filter (fun c => c.tag == (⟨wNS, "tc"⟩ : QName))).foldl
            (fun (acc2 : List String × Counters) tc =>
              let r := extract_cell_text tc acc2.2
              (acc2.1 ++ [r.1], r.2)) ([], st)).1 ≠ [] := by
        intro hcontra
        apply hne
        have := hcells
        rw [hcontra] at this
        simp only [List.length_nil] at this
        exact List.length_eq_zero.mp this.symm
      simp only [ne_eq, hlen0, not_false_eq_true, if_true]
      rw [ih]
      have : (!(tr.children.filter (fun c => c.tag == (⟨wNS, "tc"⟩ : QName))).isEmpty) = true := by
        simp [List.isEmpty_iff, hne]
      simp [this]
      omega

theorem tableRows_length_eq (tbl : Elem) (st : Counters) :
    (tableRows tbl st).1.length =
      (tbl.children.filter (fun c => c.tag == (⟨wNS, "tr"⟩ : QName))).countP
        (fun tr => !(tr.children.filter (fun c => c.tag == (⟨wNS, "tc"⟩ : QName))).isEmpty) := by
  have := rowsFold_length
    (tbl.children.filter (fun c => c.tag == (⟨wNS, "tr"⟩ : QName))) [] st
  simpa [tableRows] using this

def tblNoCellsEx : Elem := .mk ⟨wNS, "tbl"⟩ [] none [trE [], trE []]

/-- C10: a row element with zero cell children contributes no row to the
grid: the grid height is the number of `w:tr` children having at least one
`w:tc` child, and a table all of whose rows are cell-less renders as the
empty string, exactly like a table with zero rows. -/
theorem cellless_rows_skipped (tbl : Elem) (st : Counters) :
    ((tableRows tbl st).1.length =
      (tbl.children.filter (fun c => c.tag == (⟨wNS, "tr"⟩ : QName))).countP
        (fun tr => !(tr.children.filter (fun c => c.tag == (⟨wNS, "tc"⟩ : QName))).isEmpty))
    ∧ ((∀ tr ∈ tbl.children.filter (fun c => c.tag == (⟨wNS, "tr"⟩ : QName)),
          tr.children.filter (fun c => c.tag == (⟨wNS, "tc"⟩ : QName)) = []) →
        (table_to_html tbl st).1 = "") := by
  refine ⟨tableRows_length_eq tbl st, fun h => ?_⟩
  have hcount :
      (tbl.children.filter (fun c => c.tag == (⟨wNS, "tr"⟩ : QName))).countP
        (fun tr => !(tr.children.filter (fun c => c.tag == (⟨wNS, "tc"⟩ : QName))).isEmpty) = 0 := by
    rw [List.countP_eq_zero]
    intro tr htr
    simp [List.isEmpty_iff, h tr htr]
  have hrows : (tableRows tbl st).1 = [] :=
    List.length_eq_zero.mp ((tableRows_length_eq tbl st).trans hcount)
  rw [table_to_html]
  simp [hrows]

/-- Witness for C10: a two-row table whose rows have no cells renders as the
empty string, and its grid height is zero. -/
theorem cellless_rows_skipped_witness :
    (table_to_html tblNoCellsEx (Counters.mk 1 1)).1 = ""
    ∧ (tableRows tblNoCellsEx (Counters.mk 1 1)).1.length =
        (tblNoCellsEx.children.filter (fun c => c.tag == (⟨wNS, "tr"⟩ : QName))).countP
          (fun tr => !(tr.children.filter (fun c => c.tag == (⟨wNS, "tc"⟩ : QName))).isEmpty) :=
  ⟨(cellless_rows_skipped tblNoCellsEx (Counters.mk 1 1)).2 (by
      intro tr htr
      rw [show tblNoCellsEx.children.filter (fun c => c.tag == (⟨wNS, "tr"⟩ : QName)) =
        [trE [], trE []] from rfl] at htr
      rcases List.mem_cons.mp htr with h | h
      · subst h; rfl
      · rcases List.mem_cons.mp h with h | h
        · subst h; rfl
        · exact absurd h (List.not_mem_nil tr)),
   (cellless_rows_skipped tblNoCellsEx (Counters.mk 1 1)).1⟩

def isScript : Item → Bool
  | Item.sup _ => true
  | Item.sub _ => true
  | _ => false

/-- Concatenation of the texts of the superscript items of a list, in order
(the `sup += nc` accumulation of the source's inner scan). -/
def supConcat (l : List Item) : String :=
  l.foldr (fun it acc => match it with | Item.sup s => s ++ acc | _ => acc) ""

/-- Concatenation of the texts of the subscript items of a list, in order. -/
def subConcat (l : List Item) : String :=
  l.foldr (fun it acc => match it with | Item.sub s => s ++ acc | _ => acc) ""

theorem scanScripts_of_head_not_script (rest : List Item)
    (hrest : ∀ it, rest.head? = some it → isScript it = false) :
    scanScripts rest = ("", "", rest) := by
  cases rest with
  | nil => rfl
  | cons it r =>
    have h := hrest it rfl
    cases it with
    | sup s => simp [isScript] at h
    | sub s => simp [isScript] at h
    | text s => rfl
    | math s => rfl
    | image a b => rfl
    | wmf a b => rfl

theorem scanScripts_append (scripts rest : List Item)
    (hall : scripts.all isScript = true)
    (hrest : ∀ it, rest.head? = some it → isScript it = false) :
    scanScripts (scripts ++ rest) = (supConcat scripts, subConcat scripts, rest) := by
  induction scripts with
  | nil =>
    simp only [List.nil_append]
    rw [scanScripts_of_head_not_script rest hrest]
    rfl
  | cons s scripts ih =>
    have hs : isScript s = true := by
      rw [List.all_cons] at hall
      exact (Bool.and_eq_true_iff.mp hall).1
    have hall' : scripts.all isScript = true := by
      rw [List.all_cons] at hall
      exact (Bool.and_eq_true_iff.mp hall).2
    cases s with
    | sup a =>
      show scanScripts (Item.sup a :: (scripts ++ rest)) = _
      rw [scanScripts, ih hall']
      rfl
    | sub a =>
      show scanScripts (Item.sub a :: (scripts ++ rest)) = _
      rw [scanScripts, ih hall']
      rfl
    | text a => simp [isScript] at hs
    | math a => simp [isScript] at hs
    | image a b => simp [isScript] at hs
    | wmf a b => simp [isScript] at hs

theorem merge_nil : merge_superscripts_subscripts [] = [] := by
  simp [merge_superscripts_subscripts]

theorem merge_text (c : String) (rest : List Item) :
    merge_superscripts_subscripts (Item.text c :: rest) =
      (if (scanScripts rest).1 ≠ "" ∨ (scanScripts rest).2.1 ≠ "" then
        Item.math (c ++
          (if (scanScripts rest).2.1 ≠ "" ∧ (scanScripts rest).1 ≠ "" then
            "_\x7b" ++ (scanScripts rest).2.1 ++ "\x7d^\x7b" ++ (scanScripts rest).1 ++ "\x7d"
           else if (scanScripts rest).2.1 ≠ "" then "_\x7b" ++ (scanScripts rest).2.1 ++ "\x7d"
           else "^\x7b" ++ (scanScripts rest).1 ++ "\x7d")) ::
          merge_superscripts_subscripts (scanScripts rest).2.2
      else Item.text c :: merge_superscripts_subscripts rest) := by
  rw [merge_superscripts_subscripts]

theorem merge_math (c : String) (rest : List Item) :
    merge_superscripts_subscripts (Item.math c :: rest) =
      Item.math c :: merge_superscripts_subscripts rest := by
  rw [merge_superscripts_subscripts]

theorem merge_sup (c : String) (rest : List Item) :
    merge_superscripts_subscripts (Item.sup c :: rest) =
      Item.math ("^\x7b" ++ c ++ "\x7d") :: merge_superscripts_subscripts rest := by
  rw [merge_superscripts_subscripts]

theorem merge_sub (c : String) (rest : List Item) :
    merge_superscripts_subscripts (Item.sub c :: rest) =
      Item.math ("_\x7b" ++ c ++ "\x7d") :: merge_superscripts_subscripts rest := by
  rw [merge_superscripts_subscripts]

theorem merge_image (a b : String) (rest : List Item) :
    merge_superscripts_subscripts (Item.image a b :: rest) =
      Item.image a b :: merge_superscripts_subscripts rest := by
  rw [merge_superscripts_subscripts]
  all_goals simp

theorem merge_wmf (a b : String) (rest : List Item) :
    merge_superscripts_subscripts (Item.wmf a b :: rest) =
      Item.wmf a b :: merge_superscripts_subscripts rest := by
  rw [merge_superscripts_subscripts]
  all_goals simp

/-- C3 (amended): when a `Text` item is followed by consecutive script items,
the source folds the group into a single `Math` item of the form
`base_\x7bsub\x7d^\x7bsup\x7d` / `base_\x7bsub\x7d` / `base^\x7bsup\x7d`, where the choice is made by
non-emptiness of the accumulated subscript/superscript strings (not by the
presence of script items); when both accumulated strings are empty (only
possible when every trailing script has empty text) the `Text` item passes
through unchanged and the scripts are processed individually; a `Text` item
with no trailing scripts passes through unchanged. -/
theorem merge_text_scripts_fold (b : String) (scripts rest : List Item)
    (hall : scripts.all isScript = true)
    (hrest : ∀ it, rest.head? = some it → isScript it = false) :
    (supConcat scripts ≠ "" ∨ subConcat scripts ≠ "" →
      merge_superscripts_subscripts (Item.text b :: (scripts ++ rest)) =
        Item.math (b ++
          (if subConcat scripts ≠ "" ∧ supConcat scripts ≠ "" then
            "_\x7b" ++ subConcat scripts ++ "\x7d^\x7b" ++ supConcat scripts ++ "\x7d"
           else if subConcat scripts ≠ "" then "_\x7b" ++ subConcat scripts ++ "\x7d"
           else "^\x7b" ++ supConcat scripts ++ "\x7d")) ::
          merge_superscripts_subscripts rest)
    ∧ (supConcat scripts = "" → subConcat scripts = "" →
        merge_superscripts_subscripts (Item.text b :: (scripts ++ rest)) =
          Item.text b :: merge_superscripts_subscripts (scripts ++ rest))
    ∧ merge_superscripts_subscripts (Item.text b :: rest) =
        Item.text b :: merge_superscripts_subscripts rest := by
  have hscan := scanScripts_append scripts rest hall hrest
  refine ⟨fun hcond => ?_, fun hsup hsub => ?_, ?_⟩
  · rw [merge_text, hscan]
    rw [if_pos hcond]
  · rw [merge_text, hscan]
    rw [if_neg (by simp [hsup, hsub])]
  · rw [merge_text, scanScripts_of_head_not_script rest hrest]
    rw [if_neg (by simp)]

/-- C3 counterexample: `Text "x"` followed by the subscript item with empty
text is NOT folded into a single `Math` item (the claim, read over all
content-item sequences, predicts `Math "x_\x7b\x7d"`); the source emits the text
unchanged and then wraps the lone subscript separately. -/
theorem merge_text_scripts_counterexample :
    merge_superscripts_subscripts [Item.text "x", Item.sub ""] =
      [Item.text "x", Item.math "_\x7b\x7d"]
    ∧ merge_superscripts_subscripts [Item.text "x", Item.sub ""] ≠
      [Item.math "x_\x7b\x7d"] := by
  have h : merge_superscripts_subscripts [Item.text "x", Item.sub ""] =
      [Item.text "x", Item.math "_\x7b\x7d"] := by
    rw [merge_text]
    rw [show scanScripts [Item.sub ""] = ("", "", ([] : List Item)) from rfl]
    rw [if_neg (by simp)]
    rw [merge_sub, merge_nil]
    decide
  exact ⟨h, by rw [h]; decide⟩

/-- Witness for C3 (amended) at `Text "x"`, subscript `"i"`, superscript
`"2"`: the fold yields `Math "x_\x7bi\x7d^\x7b2\x7d"`. -/
theorem merge_text_scripts_fold_witness :
    merge_superscripts_subscripts [Item.text "x", Item.sub "i", Item.sup "2"] =
      [Item.math "x_\x7bi\x7d^\x7b2\x7d"] := by
  have h := (merge_text_scripts_fold "x" [Item.sub "i", Item.sup "2"] []
    (by decide) (by intro it hit; exact Option.noConfusion hit)).1 (by decide)
  rw [List.append_nil] at h
  rw [merge_nil] at h
  rw [h]
  rw [if_pos (by decide)]
  decide

theorem scanScripts_all_scripts (pre : List Item) (hall : pre.all isScript = true) :
    scanScripts pre = (supConcat pre, subConcat pre, []) := by
  have h := scanScripts_append pre [] hall (by intro it hit; exact Option.noConfusion hit)
  rwa [List.append_nil] at h

theorem scanScripts_decomp (l : List Item) :
    ∃ pre : List Item,
      l = pre ++ (scanScripts l).2.2
      ∧ pre.all isScript = true
      ∧ supConcat pre = (scanScripts l).1
      ∧ subConcat pre = (scanScripts l).2.1 := by
  induction l with
  | nil => exact ⟨[], rfl, rfl, rfl, rfl⟩
  | cons it rest ih =>
    rcases ih with ⟨pre, hsplit, hall, hsup, hsub⟩
    cases it with
    | sup a =>
      refine ⟨Item.sup a :: pre, ?_, ?_, ?_, ?_⟩
      · rw [show (scanScripts (Item.sup a :: rest)).2.2 = (scanScripts rest).2.2 from rfl]
        rw [List.cons_append]
        exact congrArg _ hsplit
      · simp [hall, isScript]
      · rw [show (scanScripts (Item.sup a :: rest)).1 = a ++ (scanScripts rest).1 from rfl]
        rw [show supConcat (Item.sup a :: pre) = a ++ supConcat pre from rfl, hsup]
      · rw [show (scanScripts (Item.sup a :: rest)).2.1 = (scanScripts rest).2.1 from rfl]
        exact hsub
    | sub a =>
      refine ⟨Item.sub a :: pre, ?_, ?_, ?_, ?_⟩
      · rw [show (scanScripts (Item.sub a :: rest)).2.2 = (scanScripts rest).2.2 from rfl]
        rw [List.cons_append]
        exact congrArg _ hsplit
      · simp [hall, isScript]
      · rw [show (scanScripts (Item.sub a :: rest)).1 = (scanScripts rest).1 from rfl]
        exact hsup
      · rw [show (scanScripts (Item.sub a :: rest)).2.1 = a ++ (scanScripts rest).2.1 from rfl]
        rw [show subConcat (Item.sub a :: pre) = a ++ subConcat pre from rfl, hsub]
    | text a => exact ⟨[], rfl, rfl, rfl, rfl⟩
    | math a => exact ⟨[], rfl, rfl, rfl, rfl⟩
    | image a b => exact ⟨[], rfl, rfl, rfl, rfl⟩
    | wmf a b => exact ⟨[], rfl, rfl, rfl, rfl⟩

theorem merge_text_all_scripts (c : String) (pre : List Item)
    (hall : pre.all isScript = true)
    (hcond : supConcat pre ≠ "" ∨ subConcat pre ≠ "") :
    merge_superscripts_subscripts (Item.text c :: pre) =
      [Item.math (c ++
        (if subConcat pre ≠ "" ∧ supConcat pre ≠ "" then
          "_\x7b" ++ subConcat pre ++ "\x7d^\x7b" ++ supConcat pre ++ "\x7d"
         else if subConcat pre ≠ "" then "_\x7b" ++ subConcat pre ++ "\x7d"
         else "^\x7b" ++ supConcat pre ++ "\x7d"))] := by
  rw [merge_text, scanScripts_all_scripts pre hall]
  rw [if_pos hcond]
  rw [show ((supConcat pre, subConcat pre, ([] : List Item))).2.2 = ([] : List Item) from rfl]
  rw [merge_nil]

theorem merge_single_text (c : String) :
    merge_superscripts_subscripts [Item.text c] = [Item.text c] := by
  rw [merge_text]
  rw [show scanScripts ([] : List Item) = ("", "", ([] : List Item)) from rfl]
  rw [if_neg (by simp)]
  rw [merge_nil]

theorem merge_blocks_aux (n : Nat) :
    ∀ l : List Item, l.length ≤ n →
      ∃ blocks : List (List Item),
        blocks.join = l
        ∧ (∀ b ∈ blocks, b ≠ [] ∧ (merge_superscripts_subscripts b).length = 1)
        ∧ merge_superscripts_subscripts l =
            (blocks.map merge_superscripts_subscripts).join := by
  induction n with
  | zero =>
    intro l hl
    have hnil : l = [] := List.length_eq_zero.mp (Nat.le_zero.mp hl)
    subst hnil
    exact ⟨[], rfl, fun b hb => absurd hb (List.not_mem_nil b), by rw [merge_nil]; rfl⟩
  | succ n ih =>
    intro l hl
    cases l with
    | nil => exact ⟨[], rfl, fun b hb => absurd hb (List.not_mem_nil b), by rw [merge_nil]; rfl⟩
    | cons it rest =>
      have hrest_len : rest.length ≤ n := by
        simp only [List.length_cons] at hl
        omega
      cases it with
      | text c =>
        by_cases hcond : (scanScripts rest).1 ≠ "" ∨ (scanScripts rest).2.1 ≠ ""
        · rcases scanScripts_decomp rest with ⟨pre, hsplit, hall, hsup, hsub⟩
          have hr_len : (scanScripts rest).2.2.length ≤ n :=
            le_trans (scanScripts_rest_length rest) hrest_len
          rcases ih (scanScripts rest).2.2 hr_len with ⟨blocks', hj', hb', hm'⟩
          have hfold := merge_text_all_scripts c pre hall
            (by rw [hsup, hsub]; exact hcond)
          refine ⟨(Item.text c :: pre) :: blocks', ?_, ?_, ?_⟩
          · show (Item.text c :: pre) ++ blocks'.join = Item.text c :: rest
            rw [hj', List.cons_append, ← hsplit]
          · intro b hb
            rcases List.mem_cons.mp hb with hbe | hbm
            · subst hbe
              exact ⟨by simp, by rw [hfold]; rfl⟩
            · exact hb' b hbm
          · rw [merge_text, if_pos hcond]
            show _ = merge_superscripts_subscripts (Item.text c :: pre) ++
              (blocks'.map merge_superscripts_subscripts).join
            rw [hfold, hm', hsup, hsub]
            rfl
        · rcases ih rest hrest_len with ⟨blocks', hj', hb', hm'⟩
          refine ⟨[Item.text c] :: blocks', ?_, ?_, ?_⟩
          · show [Item.text c] ++ blocks'.join = Item.text c :: rest
            rw [hj']
            rfl
          · intro b hb
            rcases List.mem_cons.mp hb with hbe | hbm
            · subst hbe
              exact ⟨by simp, by rw [merge_single_text]; rfl⟩
            · exact hb' b hbm
          · rw [merge_text, if_neg hcond]
            show _ = merge_superscripts_subscripts [Item.text c] ++
              (blocks'.map merge_superscripts_subscripts).join
            rw [merge_single_text, hm']
            rfl
      | math c =>
        rcases ih rest hrest_len with ⟨blocks', hj', hb', hm'⟩
        refine ⟨[Item.math c] :: blocks', ?_, ?_, ?_⟩
        · show [Item.math c] ++ blocks'.join = Item.math c :: rest
          rw [hj']
          rfl
        · intro b hb
          rcases List.mem_cons.mp hb with hbe | hbm
          · subst hbe
            exact ⟨by simp, by rw [merge_math, merge_nil]; rfl⟩
          · exact hb' b hbm
        · rw [merge_math]
          show _ = merge_superscripts_subscripts [Item.math c] ++
            (blocks'.map merge_superscripts_subscripts).join
          rw [merge_math, merge_nil, hm']
          rfl
      | sup c =>
        rcases ih rest hrest_len with ⟨blocks', hj', hb', hm'⟩
        refine ⟨[Item.sup c] :: blocks', ?_, ?_, ?_⟩
        · show [Item.sup c] ++ blocks'.join = Item.sup c :: rest
          rw [hj']
          rfl
        · intro b hb
          rcases List.mem_cons.mp hb with hbe | hbm
          · subst hbe
            exact ⟨by simp, by rw [merge_sup, merge_nil]; rfl⟩
          · exact hb' b hbm
        · rw [merge_sup]
          show _ = merge_superscripts_subscripts [Item.sup c] ++
            (blocks'.map merge_superscripts_subscripts).join
          rw [merge_sup, merge_nil, hm']
          rfl
      | sub c =>
        rcases ih rest hrest_len with ⟨blocks', hj', hb', hm'⟩
        refine ⟨[Item.sub c] :: blocks', ?_, ?_, ?_⟩
        · show [Item.sub c] ++ blocks'.join = Item.sub c :: rest
          rw [hj']
          rfl
        · intro b hb
          rcases List.mem_cons.mp hb with hbe | hbm
          · subst hbe
            exact ⟨by simp, by rw [merge_sub, merge_nil]; rfl⟩
          · exact hb' b hbm
        · rw [merge_sub]
          show _ = merge_superscripts_subscripts [Item.sub c] ++
            (blocks'.map merge_superscripts_subscripts).join
          rw [merge_sub, merge_nil, hm']
          rfl
      | image a b2 =>
        rcases ih rest hrest_len with ⟨blocks', hj', hb', hm'⟩
        refine ⟨[Item.image a b2] :: blocks', ?_, ?_, ?_⟩
        · show [Item.image a b2] ++ blocks'.join = Item.image a b2 :: rest
          rw [hj']
          rfl
        · intro b hb
          rcases List.mem_cons.mp hb with hbe | hbm
          · subst hbe
            exact ⟨by simp, by rw [merge_image, merge_nil]; rfl⟩
          · exact hb' b hbm
        · rw [merge_image]
          show _ = merge_superscripts_subscripts [Item.image a b2] ++
            (blocks'.map merge_superscripts_subscripts).join
          rw [merge_image, merge_nil, hm']
          rfl
      | wmf a b2 =>
        rcases ih rest hrest_len with ⟨blocks', hj', hb', hm'⟩
        refine ⟨[Item.wmf a b2] :: blocks', ?_, ?_, ?_⟩
        · show [Item.wmf a b2] ++ blocks'.join = Item.wmf a b2 :: rest
          rw [hj']
          rfl
        · intro b hb
          rcases List.mem_cons.mp hb with hbe | hbm
          · subst hbe
            exact ⟨by simp, by rw [merge_wmf, merge_nil]; rfl⟩
          · exact hb' b hbm
        · rw [merge_wmf]
          show _ = merge_superscripts_subscripts [Item.wmf a b2] ++
            (blocks'.map merge_superscripts_subscripts).join
          rw [merge_wmf, merge_nil, hm']
          rfl

theorem merge_blocks (l : List Item) :
    ∃ blocks : List (List Item),
      blocks.join = l
      ∧ (∀ b ∈ blocks, b ≠ [] ∧ (merge_superscripts_subscripts b).length = 1)
      ∧ merge_superscripts_subscripts l =
          (blocks.map merge_superscripts_subscripts).join :=
  merge_blocks_aux l.length l (le_refl _)

/-- C4: content items are produced in source document order (a node the
extractor does not special-case contributes the in-order concatenation of
its children's items), and the Merge Pass only folds contiguous blocks: the
input splits into consecutive non-empty blocks, each block yields exactly
one output item, and the output is the in-order concatenation of the blocks'
merges — so any two items not consumed by the same fold keep their relative
order. -/
theorem extraction_order_and_merge_order (node : Elem) (l : List Item) :
    (strip_ns node.tag ∉ (["oMath", "oMathPara", "r", "tbl"] : List String) →
      extract_paragraph_content node =
        (node.children.map extract_paragraph_content).join)
    ∧ ∃ blocks : List (List Item),
        blocks.join = l
        ∧ (∀ b ∈ blocks, b ≠ [] ∧ (merge_superscripts_subscripts b).length = 1)
        ∧ merge_superscripts_subscripts l =
            (blocks.map merge_superscripts_subscripts).join :=
  ⟨extract_eq_children node, merge_blocks l⟩

/-- Witness for C4 at a concrete paragraph node and a concrete item list. -/
theorem extraction_order_and_merge_order_witness :
    extract_paragraph_content (paraEl [wRun [wText "a"]]) =
      (((paraEl [wRun [wText "a"]]).children.map extract_paragraph_content)).join
    ∧ ∃ blocks : List (List Item),
        blocks.join = [Item.text "x", Item.sub "i", Item.math "m"]
        ∧ (∀ b ∈ blocks, b ≠ [] ∧ (merge_superscripts_subscripts b).length = 1)
        ∧ merge_superscripts_subscripts [Item.text "x", Item.sub "i", Item.math "m"] =
            (blocks.map merge_superscripts_subscripts).join :=
  ⟨(extraction_order_and_merge_order (paraEl [wRun [wText "a"]])
      [Item.text "x", Item.sub "i", Item.math "m"]).1 (by decide),
   (extraction_order_and_merge_order (paraEl [wRun [wText "a"]])
      [Item.text "x", Item.sub "i", Item.math "m"]).2⟩

def isTdLine (ln : String) : Bool := pyStartsWith ln "      <td>"

theorem prefix_append_iff_of_le {p f : List Char} (t : List Char)
    (h : p.length ≤ f.length) : p <+: f ++ t ↔ p <+: f := by
  rw [List.prefix_iff_eq_take, List.prefix_iff_eq_take, List.take_append_eq_append_take,
    Nat.sub_eq_zero_of_le h, List.take_zero, List.append_nil]

theorem pyStartsWith_append_self (pre rest : String) :
    pyStartsWith (pre ++ rest) pre = true := by
  rw [pyStartsWith, List.isPrefixOf_iff_prefix]
  show pre.toList <+: (pre ++ rest).toList
  rw [show (pre ++ rest).toList = pre.toList ++ rest.toList from String.data_append pre rest]
  exact List.prefix_append _ _

theorem isTdLine_td (cell : String) :
    isTdLine ("      <td>" ++ cell ++ "</td>") = true := by
  rw [String.append_assoc]
  exact pyStartsWith_append_self "      <td>" (cell ++ "</td>")

theorem isTdLine_th (cell : String) :
    isTdLine ("      <th>" ++ cell ++ "</th>") = false := by
  rw [isTdLine, pyStartsWith, String.append_assoc]
  rw [show ("      <th>" ++ (cell ++ "</th>")).toList =
    "      <th>".toList ++ (cell ++ "</th>").toList from String.data_append _ _]
  rw [Bool.eq_false_iff]
  intro hcontra
  rw [List.isPrefixOf_iff_prefix, prefix_append_iff_of_le _ (by decide)] at hcontra
  rw [List.prefix_iff_eq_take] at hcontra
  exact absurd hcontra (by decide)

theorem str_ne_of_length_ne {a b : String} (h : a.length ≠ b.length) : a ≠ b :=
  fun he => h (he ▸ rfl)

theorem thead_ne_th (cell : String) :
    ("      <th>" ++ cell ++ "</th>") ≠ "  <thead>" := by
  apply str_ne_of_length_ne
  rw [String.length_append, String.length_append]
  rw [show ("      <th>" : String).length = 10 from rfl,
    show ("</th>" : String).length = 5 from rfl,
    show ("  <thead>" : String).length = 9 from rfl]
  omega

theorem thead_ne_td (cell : String) :
    ("      <td>" ++ cell ++ "</td>") ≠ "  <thead>" := by
  apply str_ne_of_length_ne
  rw [String.length_append, String.length_append]
  rw [show ("      <td>" : String).length = 10 from rfl,
    show ("</td>" : String).length = 5 from rfl,
    show ("  <thead>" : String).length = 9 from rfl]
  omega

theorem thead_notin_tbody (rowsB : List (List String)) :
    "  <thead>" ∉ (rowsB.map (fun r =>
      ["    <tr>"] ++ r.map (fun cell => "      <td>" ++ cell ++ "</td>")
        ++ ["    </tr>"])).join := by
  intro hmem
  rcases List.mem_join.mp hmem with ⟨blk, hblk, hin⟩
  rcases List.mem_map.mp hblk with ⟨r, hr, hblk'⟩
  subst hblk'
  simp only [List.mem_append, List.mem_cons, List.mem_map, List.not_mem_nil,
    or_false] at hin
  rcases hin with (he | ⟨cell, _, he⟩) | he
  · exact absurd he (by decide)
  · exact absurd he (thead_ne_td cell)
  · exact absurd he (by decide)

theorem countP_td_block (r : List String) :
    (["    <tr>"] ++ r.map (fun cell => "      <td>" ++ cell ++ "</td>")
      ++ ["    </tr>"]).countP isTdLine = r.length := by
  rw [List.countP_append, List.countP_append]
  rw [show (["    <tr>"] : List String).countP isTdLine = 0 from by decide]
  rw [show (["    </tr>"] : List String).countP isTdLine = 0 from by decide]
  rw [List.countP_map]
  have h3 : List.countP (isTdLine ∘ fun cell => "      <td>" ++ cell ++ "</td>") r
      = r.length :=
    List.countP_eq_length.mpr (fun cell _ => isTdLine_td cell)
  omega

theorem countP_td_tbody (rowsB : List (List String)) (m : Nat)
    (hlen : ∀ r ∈ rowsB, r.length = m) :
    ((rowsB.map (fun r =>
      ["    <tr>"] ++ r.map (fun cell => "      <td>" ++ cell ++ "</td>")
        ++ ["    </tr>"])).join).countP isTdLine = rowsB.length * m := by
  induction rowsB with
  | nil => simp
  | cons r rowsB ih =>
    have hr : r.length = m := hlen r (List.mem_cons_self r rowsB)
    have ih' := ih (fun r' hr' => hlen r' (List.mem_cons_of_mem r hr'))
    show ((["    <tr>"] ++ r.map (fun cell => "      <td>" ++ cell ++ "</td>")
      ++ ["    </tr>"]) ++ (rowsB.map (fun r =>
      ["    <tr>"] ++ r.map (fun cell => "      <td>" ++ cell ++ "</td>")
        ++ ["    </tr>"])).join).countP isTdLine = (r :: rowsB).length * m
    rw [List.countP_append, countP_td_block, ih', hr, List.length_cons]
    ring

theorem countP_th_map (cells : List String) :
    (cells.map (fun cell => "      <th>" ++ cell ++ "</th>")).countP isTdLine = 0 := by
  rw [List.countP_map]
  exact List.countP_eq_zero.mpr (fun cell _ => by
    simp only [Function.comp_apply]
    simp [isTdLine_th cell])

theorem html_lines_pos (rows : List (List String))
    (hdr : (rows.headD []).all (fun cell => pyStrip cell != "") = true) :
    html_lines rows =
      ["<table border=\"1\">", "  <thead>", "    <tr>"]
      ++ (rows.headD []).map (fun cell => "      <th>" ++ cell ++ "</th>")
      ++ ["    </tr>", "  </thead>", "  <tbody>"]
      ++ (rows.tail.map (fun r =>
          ["    <tr>"] ++ r.map (fun cell => "      <td>" ++ cell ++ "</td>")
            ++ ["    </tr>"])).join
      ++ ["  </tbody>", "</table>"] := by
  rw [html_lines]
  simp only [hdr, if_true]
  simp [List.append_assoc]

theorem html_lines_neg (rows : List (List String))
    (hdr : (rows.headD []).all (fun cell => pyStrip cell != "") = false) :
    html_lines rows =
      ["<table border=\"1\">", "  <tbody>"]
      ++ (rows.map (fun r =>
          ["    <tr>"] ++ r.map (fun cell => "      <td>" ++ cell ++ "</td>")
            ++ ["    </tr>"])).join
      ++ ["  </tbody>", "</table>"] := by
  rw [html_lines]
  simp only [hdr, if_false, Bool.false_eq_true]
  simp [List.append_assoc]

theorem thead_mem_html_lines_pos (rows : List (List String))
    (hdr : (rows.headD []).all (fun cell => pyStrip cell != "") = true) :
    "  <thead>" ∈ html_lines rows := by
  rw [html_lines_pos rows hdr]
  simp

theorem thead_notin_html_lines_neg (rows : List (List String))
    (hdr : (rows.headD []).all (fun cell => pyStrip cell != "") = false) :
    "  <thead>" ∉ html_lines rows := by
  rw [html_lines_neg rows hdr]
  intro hmem
  rcases List.mem_append.mp hmem with h | h
  · rcases List.mem_append.mp h with h | h
    · rcases List.mem_cons.mp h with he | h
      · exact absurd he (by decide)
      · rcases List.mem_cons.mp h with he | h
        · exact absurd he (by decide)
        · exact absurd h (List.not_mem_nil _)
    · exact absurd h (thead_notin_tbody rows)
  · rcases List.mem_cons.mp h with he | h
    · exact absurd he (by decide)
    · rcases List.mem_cons.mp h with he | h
      · exact absurd he (by decide)
      · exact absurd h (List.not_mem_nil _)

theorem mem_of_mem_tail' {α : Type _} {l : List α} {a : α} (h : a ∈ l.tail) :
    a ∈ l := by
  cases l with
  | nil => cases h
  | cons x xs => exact List.mem_cons_of_mem x h

/-- C7: for a non-empty grid the first row is rendered as a `thead` header
section if and only if every cell of the (padded) first row is non-empty
after trimming; the `td` body lines cover the remaining rows when the header
is promoted and all rows otherwise. -/
theorem header_promotion_rule (tbl : Elem) (st : Counters)
    (hne : (tableRows tbl st).1 ≠ []) :
    (("  <thead>" ∈ html_lines (padRows (tableRows tbl st).1)) ↔
      ((padRows (tableRows tbl st).1).headD []).all
        (fun cell => pyStrip cell != "") = true)
    ∧ (((padRows (tableRows tbl st).1).headD []).all
          (fun cell => pyStrip cell != "") = true →
        (html_lines (padRows (tableRows tbl st).1)).countP isTdLine =
          ((padRows (tableRows tbl st).1).length - 1) * maxCols (tableRows tbl st).1)
    ∧ (((padRows (tableRows tbl st).1).headD []).all
          (fun cell => pyStrip cell != "") = false →
        (html_lines (padRows (tableRows tbl st).1)).countP isTdLine =
          (padRows (tableRows tbl st).1).length * maxCols (tableRows tbl st).1) := by
  have hlen : ∀ r ∈ padRows (tableRows tbl st).1,
      r.length = maxCols (tableRows tbl st).1 :=
    fun r hr => padRows_mem_length hr
  rcases Bool.eq_false_or_eq_true
    (((padRows (tableRows tbl st).1).headD []).all (fun cell => pyStrip cell != ""))
    with hdr | hdr
  · refine ⟨⟨fun _ => hdr, fun _ => thead_mem_html_lines_pos _ hdr⟩,
      fun _ => ?_, fun hfalse => by rw [hdr] at hfalse; exact absurd hfalse (by decide)⟩
    rw [html_lines_pos _ hdr]
    rw [List.countP_append, List.countP_append, List.countP_append, List.countP_append]
    rw [countP_th_map]
    rw [countP_td_tbody _ _ (fun r hr => hlen r (mem_of_mem_tail' hr))]
    rw [show (["<table border=\"1\">", "  <thead>", "    <tr>"] : List String).countP
      isTdLine = 0 from by decide]
    rw [show (["    </tr>", "  </thead>", "  <tbody>"] : List String).countP isTdLine = 0
      from by decide]
    rw [show (["  </tbody>", "</table>"] : List String).countP isTdLine = 0 from by decide]
    simp only [Nat.zero_add, Nat.add_zero]
    rw [List.length_tail]
  · refine ⟨⟨fun hmem => absurd hmem (thead_notin_html_lines_neg _ hdr),
      fun htrue => by rw [hdr] at htrue; exact absurd htrue (by decide)⟩,
      fun htrue => by rw [hdr] at htrue; exact absurd htrue (by decide), fun _ => ?_⟩
    rw [html_lines_neg _ hdr]
    rw [List.countP_append, List.countP_append]
    rw [countP_td_tbody _ _ hlen]
    rw [show (["<table border=\"1\">", "  <tbody>"] : List String).countP isTdLine = 0
      from by decide]
    rw [show (["  </tbody>", "</table>"] : List String).countP isTdLine = 0
      from by decide]
    simp only [Nat.zero_add, Nat.add_zero]

def tcCell (s : String) : Elem := tcE [paraEl [wRun [wText s]]]

def tblHdrEx : Elem := .mk ⟨wNS, "tbl"⟩ [] none [trE [tcCell "a", tcCell "b"]]

def tblNoHdrEx : Elem := .mk ⟨wNS, "tbl"⟩ [] none [trE [tcE [], tcCell "b"]]

theorem mergeEval_text_run (s : String)
    (h : extract_paragraph_content (paraEl [wRun [wText s]]) = [Item.text s]) :
    merge_superscripts_subscripts
      (extract_paragraph_content (paraEl [wRun [wText s]])) = [Item.text s] := by
  rw [h]
  exact merge_single_text s

theorem cellEval_a :
    extract_cell_text (tcCell "a") (Counters.mk 1 1) = ("a", Counters.mk 1 1) := by
  unfold extract_cell_text
  rw [show (tcCell "a").children.filter (fun c => c.tag == (⟨wNS, "p"⟩ : QName)) =
    [paraEl [wRun [wText "a"]]] from rfl]
  simp only [List.foldl_cons, List.foldl_nil, mergeEval_text_run "a" (by decide)]
  decide

theorem cellEval_b :
    extract_cell_text (tcCell "b") (Counters.mk 1 1) = ("b", Counters.mk 1 1) := by
  unfold extract_cell_text
  rw [show (tcCell "b").children.filter (fun c => c.tag == (⟨wNS, "p"⟩ : QName)) =
    [paraEl [wRun [wText "b"]]] from rfl]
  simp only [List.foldl_cons, List.foldl_nil, mergeEval_text_run "b" (by decide)]
  decide

theorem rowsEval_hdr :
    tableRows tblHdrEx (Counters.mk 1 1) = ([["a", "b"]], Counters.mk 1 1) := by
  unfold tableRows
  rw [show tblHdrEx.children.filter (fun c => c.tag == (⟨wNS, "tr"⟩ : QName)) =
    [trE [tcCell "a", tcCell "b"]] from rfl]
  simp only [List.foldl_cons, List.foldl_nil]
  rw [show (trE [tcCell "a", tcCell "b"]).children.filter
    (fun c => c.tag == (⟨wNS, "tc"⟩ : QName)) = [tcCell "a", tcCell "b"] from rfl]
  simp only [List.foldl_cons, List.foldl_nil, cellEval_a, cellEval_b]
  decide

theorem rowsEval_nohdr :
    tableRows tblNoHdrEx (Counters.mk 1 1) = ([["", "b"]], Counters.mk 1 1) := by
  unfold tableRows
  rw [show tblNoHdrEx.children.filter (fun c => c.tag == (⟨wNS, "tr"⟩ : QName)) =
    [trE [tcE [], tcCell "b"]] from rfl]
  simp only [List.foldl_cons, List.foldl_nil]
  rw [show (trE [tcE [], tcCell "b"]).children.filter
    (fun c => c.tag == (⟨wNS, "tc"⟩ : QName)) = [tcE [], tcCell "b"] from rfl]
  simp only [List.foldl_cons, List.foldl_nil, cellEval_b]
  rw [show extract_cell_text (tcE []) (Counters.mk 1 1) = ("", Counters.mk 1 1)
    from by decide]
  simp only [cellEval_b]
  decide

/-- Witness for C7: the table with first row `["a", "b"]` gets a header
section, the table with first row `["", "b"]` gets none. -/
theorem header_promotion_rule_witness :
    ("  <thead>" ∈ html_lines (padRows (tableRows tblHdrEx (Counters.mk 1 1)).1))
    ∧ "  <thead>" ∉ html_lines (padRows (tableRows tblNoHdrEx (Counters.mk 1 1)).1) := by
  constructor
  · exact (header_promotion_rule tblHdrEx (Counters.mk 1 1)
      (by rw [rowsEval_hdr]; decide)).1.mpr (by rw [rowsEval_hdr]; decide)
  · intro hmem
    have h := (header_promotion_rule tblNoHdrEx (Counters.mk 1 1)
      (by rw [rowsEval_nohdr]; decide)).1.mp hmem
    rw [rowsEval_nohdr] at h
    exact absurd h (by decide)

def pH0 : Elem :=
  Elem.mk ⟨wNS, "p"⟩ [] none
    [Elem.mk ⟨wNS, "pPr"⟩ [] none
      [Elem.mk ⟨wNS, "pStyle"⟩ [(⟨wNS, "val"⟩, "heading0")] none []],
     wRun [wText "T"]]

def pH3 : Elem :=
  Elem.mk ⟨wNS, "p"⟩ [] none
    [Elem.mk ⟨wNS, "pPr"⟩ [] none
      [Elem.mk ⟨wNS, "pStyle"⟩ [(⟨wNS, "val"⟩, "Heading3")] none []],
     wRun [wText "T"]]

theorem empty_append_str (s : String) : "" ++ s = s := rfl

/-- C9 (amended): for a paragraph whose style value starts with `heading`
(case-insensitively), the emitted prefix is `min(N, 6)` hash marks followed
by one space, where `N` is the number formed by all the decimal digits of
the style value (1 when there are none).  There is no lower clamp: a digit
value of 0 (e.g. style `heading0`) yields zero hash marks, not level 1. -/
theorem heading_marks_rule (d : String) (p : Elem) (st : Counters)
    (pPr ps : Elem) (v : String)
    (h1 : findChild p ⟨wNS, "pPr"⟩ = some pPr)
    (h2 : findChild pPr ⟨wNS, "pStyle"⟩ = some ps)
    (h3 : getAttr ps ⟨wNS, "val"⟩ = some v)
    (h4 : v ≠ "")
    (h5 : pyStartsWith (pyLower v) "heading" = true) :
    ∃ rest : String,
      (paragraph_to_md d p st).1 =
        (if hasNumPr p then "- " else "") ++
        ((String.mk (List.replicate
          (min (if v.toList.filter Char.isDigit = [] then 1
                else digitsToNat (v.toList.filter Char.isDigit)) 6) '#') ++ " ") ++ rest) := by
  have hh : headingMarks p =
      String.mk (List.replicate
        (min (if v.toList.filter Char.isDigit = [] then 1
              else digitsToNat (v.toList.filter Char.isDigit)) 6) '#') ++ " " := by
    unfold headingMarks
    simp only [h1, h2, h3]
    rw [if_pos ⟨h4, h5⟩]
  refine ⟨(renderItems d
      ((merge_superscripts_subscripts (extract_paragraph_content p)).any isMathItem &&
        !((merge_superscripts_subscripts (extract_paragraph_content p)).any isRealText))
      (merge_superscripts_subscripts (extract_paragraph_content p)) st).1, ?_⟩
  unfold paragraph_to_md
  by_cases hn : hasNumPr p
  · simp only [hn, if_true, hh]
  · simp only [hn, Bool.false_eq_true, if_false, hh, empty_append_str]

/-- C9 counterexample: the claim's lower clamp does not exist in the code.
For style value `heading0` the digit value is 0 and `'#' * min(0, 6)` is
empty, so the paragraph renders as `" T"`, not the claimed level-1 heading
`"# T"`. -/
theorem heading_marks_counterexample :
    (paragraph_to_md "2222" pH0 (Counters.mk 1 1)).1 = " T"
    ∧ (" T" : String) ≠ "# T" := by
  have hm : merge_superscripts_subscripts (extract_paragraph_content pH0) =
      [Item.text "T"] := by
    rw [show extract_paragraph_content pH0 = [Item.text "T"] from by decide]
    exact merge_single_text "T"
  constructor
  · unfold paragraph_to_md
    simp only [hm]
    decide
  · decide

/-- Witness for C9 (amended) at a `Heading3` paragraph: the prefix is
`### `. -/
theorem heading_marks_rule_witness :
    (∃ rest : String,
      (paragraph_to_md "2222" pH3 (Counters.mk 1 1)).1 =
        (if hasNumPr pH3 then "- " else "") ++
        ((String.mk (List.replicate
          (min (if ("Heading3" : String).toList.filter Char.isDigit = [] then 1
                else digitsToNat (("Heading3" : String).toList.filter Char.isDigit)) 6) '#')
          ++ " ") ++ rest)) :=
  heading_marks_rule "2222" pH3 (Counters.mk 1 1)
    (Elem.mk ⟨wNS, "pPr"⟩ [] none
      [Elem.mk ⟨wNS, "pStyle"⟩ [(⟨wNS, "val"⟩, "Heading3")] none []])
    (Elem.mk ⟨wNS, "pStyle"⟩ [(⟨wNS, "val"⟩, "Heading3")] none [])
    "Heading3" rfl rfl rfl (by decide) (by decide)

theorem str_foldl_append (l : List String) :
    ∀ a : String, l.foldl (fun r s => r ++ s) a = a ++ l.foldl (fun r s => r ++ s) "" := by
  induction l with
  | nil => intro a; exact (String.append_empty a).symm
  | cons x xs ih =>
    intro a
    rw [List.foldl_cons, List.foldl_cons, ih (a ++ x), ih ("" ++ x), empty_append_str,
      String.append_assoc]

theorem str_join_cons (s : String) (l : List String) :
    String.join (s :: l) = s ++ String.join l := by
  show (s :: l).foldl (fun r s => r ++ s) "" = s ++ l.foldl (fun r s => r ++ s) ""
  rw [List.foldl_cons, empty_append_str, str_foldl_append]

def isImageItem : Item → Bool
  | Item.image _ _ => true
  | Item.wmf _ _ => true
  | _ => false

/-- The per-item rendering of `paragraph_to_md` in terms of only the
display/inline mode, valid when no image items are present (so the counters
do not move). -/
theorem renderItems_no_images (d : String) (om : Bool) (items : List Item) :
    ∀ st : Counters, (∀ it ∈ items, isImageItem it = false) →
      renderItems d om items st =
        (String.join (items.map (fun it =>
          match it with
          | Item.text c => c
          | Item.math c => if om then "\n\n$$\n" ++ c ++ "\n$$\n\n" else " $ " ++ c ++ " $ "
          | Item.sup c => "^\x7b" ++ c ++ "\x7d"
          | Item.sub c => "_\x7b" ++ c ++ "\x7d"
          | _ => "")), st) := by
  induction items with
  | nil => intro st _; rfl
  | cons it rest ih =>
    intro st h
    have hrest := fun it' hit' => h it' (List.mem_cons_of_mem it hit')
    have hhead := h it (List.mem_cons_self it rest)
    cases it with
    | text c =>
      show (c ++ (renderItems d om rest st).1, (renderItems d om rest st).2) = _
      rw [ih st hrest]
      rw [List.map_cons, str_join_cons]
    | math c =>
      show ((if om then "\n\n$$\n" ++ c ++ "\n$$\n\n" else " $ " ++ c ++ " $ ") ++
          (renderItems d om rest st).1, (renderItems d om rest st).2) = _
      rw [ih st hrest]
      rw [List.map_cons, str_join_cons]
    | sup c =>
      show ("^\x7b" ++ c ++ "\x7d" ++ (renderItems d om rest st).1,
          (renderItems d om rest st).2) = _
      rw [ih st hrest]
      rw [List.map_cons, str_join_cons]
    | sub c =>
      show ("_\x7b" ++ c ++ "\x7d" ++ (renderItems d om rest st).1,
          (renderItems d om rest st).2) = _
      rw [ih st hrest]
      rw [List.map_cons, str_join_cons]
    | image a b => simp [isImageItem] at hhead
    | wmf a b => simp [isImageItem] at hhead

theorem extract_eq_oMath (node : Elem)
    (h : strip_ns node.tag = "oMath" ∨ strip_ns node.tag = "oMathPara") :
    extract_paragraph_content node =
      (if pyStrip (omml_to_latex node) ≠ "" then
        [Item.math (pyStrip (omml_to_latex node))] else []) := by
  cases node with
  | mk t a tx cs =>
    simp only [Elem.tag] at h
    rw [extract_paragraph_content]
    rw [if_pos h]

def piMath : Elem := mathGroup [mathRun [mathText "π"]]

def pPi : Elem := paraEl [piMath]

def pValuePi : Elem := paraEl [wRun [wText "Value: "], piMath]

theorem ommlEval_pi : omml_to_latex piMath = " \\pi " := by
  rw [omml_eq_oMath piMath (Or.inl rfl), ommlChildren]
  rw [show piMath.children = [mathRun [mathText "π"]] from rfl]
  rw [List.map_cons, List.map_nil]
  rw [omml_eq_run (mathRun [mathText "π"]) (Or.inl rfl)]
  decide

theorem extractEval_piMath :
    extract_paragraph_content piMath = [Item.math "\\pi"] := by
  rw [extract_eq_oMath piMath (Or.inl rfl), ommlEval_pi]
  decide

theorem extractEval_pPi :
    extract_paragraph_content pPi = [Item.math "\\pi"] := by
  rw [extract_eq_children _ (by decide)]
  rw [show pPi.children = [piMath] from rfl]
  rw [List.map_cons, List.map_nil, extractEval_piMath]
  decide

theorem extractEval_pValuePi :
    extract_paragraph_content pValuePi = [Item.text "Value: ", Item.math "\\pi"] := by
  rw [extract_eq_children _ (by decide)]
  rw [show pValuePi.children = [wRun [wText "Value: "], piMath] from rfl]
  rw [List.map_cons, List.map_cons, List.map_nil, extractEval_piMath]
  rw [show extract_paragraph_content (wRun [wText "Value: "]) = [Item.text "Value: "]
    from by decide]
  decide

theorem mergeEval_pPi :
    merge_superscripts_subscripts (extract_paragraph_content pPi) =
      [Item.math "\\pi"] := by
  rw [extractEval_pPi, merge_math, merge_nil]

theorem mergeEval_pValuePi :
    merge_superscripts_subscripts (extract_paragraph_content pValuePi) =
      [Item.text "Value: ", Item.math "\\pi"] := by
  rw [extractEval_pValuePi, merge_text]
  rw [show scanScripts [Item.math "\\pi"] = ("", "", [Item.math "\\pi"]) from rfl]
  rw [if_neg (by simp)]
  rw [merge_math, merge_nil]

/-- C8 (amended): a paragraph whose merged items contain math but no
non-blank text renders each math item as a display block
`\n\n$$\n…\n$$\n\n` (the transpiled LaTeX having been whitespace-stripped at
extraction, so the π paragraph yields `$$\nπ-latex\n$$` with no inner
padding spaces); with non-blank text present each math item renders inline
as ` $ … $ ` (one space inside each delimiter), text verbatim — so the
`Value: ` example yields `Value:  $ \pi $ ` with a trailing space. -/
theorem math_display_inline_rule (d : String) (p : Elem) (st : Counters) :
    ((paragraph_to_md "2222" pPi st).1 = "\n\n$$\n\\pi\n$$\n\n")
    ∧ ((paragraph_to_md "2222" pValuePi st).1 = "Value:  $ \\pi $ ")
    ∧ ((merge_superscripts_subscripts (extract_paragraph_content p)).any isMathItem = true →
       (merge_superscripts_subscripts (extract_paragraph_content p)).any isRealText = false →
       (∀ it ∈ merge_superscripts_subscripts (extract_paragraph_content p),
          isImageItem it = false) →
       (paragraph_to_md d p st).1 =
         (if hasNumPr p then "- " else "") ++ headingMarks p ++
         String.join ((merge_superscripts_subscripts (extract_paragraph_content p)).map
           (fun it => match it with
            | Item.text c => c
            | Item.math c => "\n\n$$\n" ++ c ++ "\n$$\n\n"
            | Item.sup c => "^\x7b" ++ c ++ "\x7d"
            | Item.sub c => "_\x7b" ++ c ++ "\x7d"
            | _ => "")))
    ∧ ((merge_superscripts_subscripts (extract_paragraph_content p)).any isRealText = true →
       (∀ it ∈ merge_superscripts_subscripts (extract_paragraph_content p),
          isImageItem it = false) →
       (paragraph_to_md d p st).1 =
         (if hasNumPr p then "- " else "") ++ headingMarks p ++
         String.join ((merge_superscripts_subscripts (extract_paragraph_content p)).map
           (fun it => match it with
            | Item.text c => c
            | Item.math c => " $ " ++ c ++ " $ "
            | Item.sup c => "^\x7b" ++ c ++ "\x7d"
            | Item.sub c => "_\x7b" ++ c ++ "\x7d"
            | _ => ""))) := by
  refine ⟨?_, ?_, fun hmath htext himg => ?_, fun htext himg => ?_⟩
  · unfold paragraph_to_md
    simp only [mergeEval_pPi]
    rw [show (([Item.math "\\pi"].any isMathItem) && !([Item.math "\\pi"].any isRealText))
      = true from rfl]
    rw [renderItems_no_images "2222" true [Item.math "\\pi"] st (by decide)]
    rfl
  · unfold paragraph_to_md
    simp only [mergeEval_pValuePi]
    rw [show (([Item.text "Value: ", Item.math "\\pi"].any isMathItem) &&
      !([Item.text "Value: ", Item.math "\\pi"].any isRealText)) = false from rfl]
    rw [renderItems_no_images "2222" false [Item.text "Value: ", Item.math "\\pi"] st
      (by decide)]
    rfl
  · unfold paragraph_to_md
    simp only [hmath, htext, Bool.not_false, Bool.and_self]
    rw [renderItems_no_images d true _ st himg]
    simp only [if_true]
    by_cases hn : hasNumPr p
    · simp only [hn, if_true, String.append_assoc]
    · simp only [hn, Bool.false_eq_true, if_false, empty_append_str]
  · unfold paragraph_to_md
    simp only [htext, Bool.not_true, Bool.and_false]
    rw [renderItems_no_images d false _ st himg]
    simp only [Bool.false_eq_true, if_false]
    by_cases hn : hasNumPr p
    · simp only [hn, if_true, String.append_assoc]
    · simp only [hn, Bool.false_eq_true, if_false, empty_append_str]

/-- C8 counterexample: the claimed concrete strings are wrong about
whitespace.  The transpiled LaTeX is stripped before wrapping, so the
display block for the π paragraph has no spaces around the LaTeX
(`$$\n\pi\n$$`, not `$$\n \pi \n$$`), and the inline form keeps exactly one
space inside each `$` delimiter plus a trailing space
(`Value:  $ \pi $ `, not `Value:  $  \pi  $`). -/
theorem math_display_counterexample :
    (paragraph_to_md "2222" pPi (Counters.mk 1 1)).1 ≠ "\n\n$$\n \\pi \n$$\n\n"
    ∧ (paragraph_to_md "2222" pValuePi (Counters.mk 1 1)).1 ≠ "Value:  $  \\pi  $" := by
  have e1 : (paragraph_to_md "2222" pPi (Counters.mk 1 1)).1 = "\n\n$$\n\\pi\n$$\n\n" := by
    unfold paragraph_to_md
    simp only [mergeEval_pPi]
    rw [show (([Item.math "\\pi"].any isMathItem) && !([Item.math "\\pi"].any isRealText))
      = true from rfl]
    rw [renderItems_no_images "2222" true [Item.math "\\pi"] (Counters.mk 1 1) (by decide)]
    rfl
  have e2 : (paragraph_to_md "2222" pValuePi (Counters.mk 1 1)).1 = "Value:  $ \\pi $ " := by
    unfold paragraph_to_md
    simp only [mergeEval_pValuePi]
    rw [show (([Item.text "Value: ", Item.math "\\pi"].any isMathItem) &&
      !([Item.text "Value: ", Item.math "\\pi"].any isRealText)) = false from rfl]
    rw [renderItems_no_images "2222" false [Item.text "Value: ", Item.math "\\pi"]
      (Counters.mk 1 1) (by decide)]
    rfl
  rw [e1, e2]
  exact ⟨by decide, by decide⟩

/-- Witness for C8 (amended): the display rule applied to the concrete π
paragraph. -/
theorem math_display_inline_rule_witness :
    (paragraph_to_md "2222" pPi (Counters.mk 1 1)).1 =
      (if hasNumPr pPi then "- " else "") ++ headingMarks pPi ++
      String.join ((merge_superscripts_subscripts (extract_paragraph_content pPi)).map
        (fun it => match it with
         | Item.text c => c
         | Item.math c => "\n\n$$\n" ++ c ++ "\n$$\n\n"
         | Item.sup c => "^\x7b" ++ c ++ "\x7d"
         | Item.sub c => "_\x7b" ++ c ++ "\x7d"
         | _ => "")) :=
  (math_display_inline_rule "2222" pPi (Counters.mk 1 1)).2.2.1
    (by rw [mergeEval_pPi]; decide)
    (by rw [mergeEval_pPi]; decide)
    (by rw [mergeEval_pPi]; intro it hit; rcases List.mem_cons.mp hit with he | he
        · subst he; rfl
        · exact absurd he (List.not_mem_nil it))

def isRasterImage : Item → Bool
  | Item.image _ _ => true
  | _ => false

def isVectorImage : Item → Bool
  | Item.wmf _ _ => true
  | _ => false

theorem renderItems_state (d : String) (om : Bool) (items : List Item) :
    ∀ st : Counters,
      (renderItems d om items st).2 =
        Counters.mk (st.png + items.countP isRasterImage)
          (st.wmf + items.countP isVectorImage) := by
  induction items with
  | nil =>
    intro st
    show st = _
    cases st
    simp
  | cons it rest ih =>
    intro st
    cases it with
    | text c =>
      show (renderItems d om rest st).2 = _
      rw [ih st]
      simp [List.countP_cons, isRasterImage, isVectorImage]
    | math c =>
      show (renderItems d om rest st).2 = _
      rw [ih st]
      simp [List.countP_cons, isRasterImage, isVectorImage]
    | sup c =>
      show (renderItems d om rest st).2 = _
      rw [ih st]
      simp [List.countP_cons, isRasterImage, isVectorImage]
    | sub c =>
      show (renderItems d om rest st).2 = _
      rw [ih st]
      simp [List.countP_cons, isRasterImage, isVectorImage]
    | image a b =>
      show (renderItems d om rest (Counters.mk (st.png + 1) st.wmf)).2 = _
      rw [ih (Counters.mk (st.png + 1) st.wmf)]
      simp [List.countP_cons, isRasterImage, isVectorImage, Counters.mk.injEq]
      omega
    | wmf a b =>
      show (renderItems d om rest (Counters.mk st.png (st.wmf + 1))).2 = _
      rw [ih (Counters.mk st.png (st.wmf + 1))]
      simp [List.countP_cons, isRasterImage, isVectorImage, Counters.mk.injEq]
      omega

/-- C1: paragraph conversion is a pure function of the paragraph subtree and
the counter state: converting the same paragraph twice from the same program
state yields identical items and identical output (in this embedding the
whole pipeline is a function, so determinism is definitional), and its only
effect on the transpiler's state is the deterministic bump of the two image
counters by the number of raster/vector image items of the paragraph. -/
theorem paragraph_conversion_deterministic (d : String) (p : Elem) (st : Counters) :
    extract_paragraph_content p = extract_paragraph_content p
    ∧ merge_superscripts_subscripts (extract_paragraph_content p) =
        merge_superscripts_subscripts (extract_paragraph_content p)
    ∧ (paragraph_to_md d p st).1 = (paragraph_to_md d p st).1
    ∧ (paragraph_to_md d p st).2 =
        Counters.mk
          (st.png + (merge_superscripts_subscripts
            (extract_paragraph_content p)).countP isRasterImage)
          (st.wmf + (merge_superscripts_subscripts
            (extract_paragraph_content p)).countP isVectorImage) := by
  refine ⟨rfl, rfl, rfl, ?_⟩
  unfold paragraph_to_md
  rw [renderItems_state]
